import Mathlib

/-!
Shallow embedding of the WebSheets core (src/unnamed/part_000: the
parseNumMaybe helper and the WebSheet class) for checking the
natural-language specification against the code.

Modelling conventions, chosen once and used throughout:

* JavaScript numbers are modelled by the tagged type JSNum: an exact
  rational, one of the two infinities, or the not-a-number value.  The
  claims under study never depend on rounding, only on equality,
  absolute difference against an epsilon, and the infinity/NaN
  classification, which JSNum renders exactly.
* JavaScript values stored in cells are modelled by Value: number,
  string, boolean, Date, or Error.  Date and Error objects are compared
  by reference in JavaScript; each carries a reference tag, and the
  sheet state carries a counter used to allocate a fresh tag each time
  the code evaluates a new Error (new Error in the source).
* A sparse JavaScript array is a List of Option entries: none is a hole
  (or a deleted entry), and List.length is the array length.  The outer
  row array is likewise a List of Option rows.
* Cell identifiers: the cellID module (getCellID / getCellPos) is not
  under src.  Modelled from the spec: the spec only requires the
  encoding to be a stable bijection with (row, column), so a CellID is
  the coordinate pair itself.
* The ExpressionEngine (parseExpression, imported from exprCompiler) is
  declared an external collaborator by the spec.  It is modelled as a
  parameter: an Engine maps formula text to either a syntax fault or a
  parsed expression exposing evaluation and same-grid dependency
  enumeration, exactly the contract the spec gives.  Cross-grid
  features (this.context) are modelled as absent (a headless,
  context-free instance), so the if (this.context) branches of the
  source are skipped; no claim under study exercises a context.
* Emitter.fire is modelled by appending the fired event to an event
  log; the claims only count and order emissions.
-/

namespace WS

/-- Modelled from the spec: cell identifier, a stable bijective encoding of
(row, column); the A1-style string encoding of the missing cellID module is
replaced by the pair itself. -/
abbrev CellID := Nat × Nat

/-- Modelled from the spec: getCellID of the missing cellID module. -/
def getCellID (row col : Nat) : CellID := (row, col)

/-- Modelled from the spec: getCellPos of the missing cellID module. -/
def getCellPos (id : CellID) : Nat × Nat := id

/-- Rendering of a cell identifier used inside diagnostic message text. -/
def showCellID (id : CellID) : String :=
  "(" ++ toString id.1 ++ "," ++ toString id.2 ++ ")"

/-- An exact rational represented as an integer fraction with positive
denominator and gcd-free arithmetic.  (Lean's built-in Rat normalises
through Nat.gcd, which is defined by well-founded recursion and blocks
kernel evaluation of concrete runs; this representation keeps every
operation kernel-computable.  Every constructor and operation below keeps
the denominator positive.) -/
structure Frac where
  num : ℤ
  den : ℤ
deriving DecidableEq, Repr

/-- The fraction n/1. -/
def Frac.ofInt (n : ℤ) : Frac := ⟨n, 1⟩

/-- Exact addition, without normalisation. -/
def Frac.add (a b : Frac) : Frac := ⟨a.num * b.den + b.num * a.den, a.den * b.den⟩

/-- Exact subtraction, without normalisation. -/
def Frac.sub (a b : Frac) : Frac := ⟨a.num * b.den - b.num * a.den, a.den * b.den⟩

/-- Absolute value (denominators are positive). -/
def Frac.fabs (a : Frac) : Frac := ⟨(a.num.natAbs : ℤ), a.den⟩

/-- Value equality by cross-multiplication (denominators are positive). -/
def Frac.valEq (a b : Frac) : Bool := a.num * b.den == b.num * a.den

/-- Strict order by cross-multiplication (denominators are positive). -/
def Frac.ltB (a b : Frac) : Bool := decide (a.num * b.den < b.num * a.den)

/-- The rational denoted by a fraction (claim-side semantics). -/
def Frac.toRat (a : Frac) : ℚ := (a.num : ℚ) / (a.den : ℚ)

/-- 10 to a natural power, kernel-computable. -/
def pow10 : ℕ → ℤ
  | 0 => 1
  | n + 1 => 10 * pow10 n

/-- A JavaScript number: an exact finite rational, an infinity, or NaN. -/
inductive JSNum where
  | finite (q : Frac)
  | posInf
  | negInf
  | nan
deriving DecidableEq, Repr

/-- JavaScript strict equality on numbers: value equality on finite numbers,
and NaN is not equal to itself. -/
def JSNum.strictEq : JSNum → JSNum → Bool
  | .finite a, .finite b => a.valEq b
  | .posInf, .posInf => true
  | .negInf, .negInf => true
  | _, _ => false

/-- JavaScript subtraction on numbers. -/
def JSNum.sub : JSNum → JSNum → JSNum
  | .nan, _ => .nan
  | _, .nan => .nan
  | .finite a, .finite b => .finite (a.sub b)
  | .posInf, .posInf => .nan
  | .negInf, .negInf => .nan
  | .posInf, _ => .posInf
  | .negInf, _ => .negInf
  | .finite _, .posInf => .negInf
  | .finite _, .negInf => .posInf

/-- JavaScript Math.abs. -/
def JSNum.abs : JSNum → JSNum
  | .finite a => .finite a.fabs
  | .posInf => .posInf
  | .negInf => .posInf
  | .nan => .nan

/-- JavaScript comparison of a number against a finite rational threshold:
any comparison with NaN is false. -/
def JSNum.gtQ : JSNum → Frac → Bool
  | .finite a, e => e.ltB a
  | .posInf, _ => true
  | .negInf, _ => false
  | .nan, _ => false

/-- Is this number NaN?  (JavaScript isNaN on a number.) -/
def JSNum.isNaN : JSNum → Bool
  | .nan => true
  | _ => false

/-- JavaScript addition on numbers (used by the concrete expression
engines of the scenarios). -/
def JSNum.add : JSNum → JSNum → JSNum
  | .nan, _ => .nan
  | _, .nan => .nan
  | .finite a, .finite b => .finite (a.add b)
  | .posInf, .negInf => .nan
  | .negInf, .posInf => .nan
  | .posInf, _ => .posInf
  | .negInf, _ => .negInf
  | .finite _, .posInf => .posInf
  | .finite _, .negInf => .negInf

/-- A JavaScript value as stored in a cell.  Date and Error values carry a
reference tag standing for object identity. -/
inductive Value where
  | num (n : JSNum)
  | str (s : String)
  | bool (b : Bool)
  | date (ref : Nat)
  | err (ref : Nat) (msg : String)
deriving DecidableEq, Repr

/-- JavaScript strict equality on values: structural on primitives,
reference identity on Date and Error objects. -/
def Value.strictEq : Value → Value → Bool
  | .num a, .num b => a.strictEq b
  | .str a, .str b => a == b
  | .bool a, .bool b => a == b
  | .date a, .date b => a == b
  | .err a _, .err b _ => a == b
  | _, _ => false

/-- Decimal rendering of a JavaScript number (Number.prototype.toString).
Finite values are rationals in this model; integral ones render as JavaScript
would, non-integral ones by an exact fraction (a model artefact: such values
only arise from the model's exact arithmetic). -/
def jsNumToString : JSNum → String
  | .finite q => if q.den = 1 then toString q.num else toString q.num ++ "/" ++ toString q.den
  | .posInf => "Infinity"
  | .negInf => "-Infinity"
  | .nan => "NaN"

/-- JavaScript String() of a value, as consumed by parseFloat.  The Date and
Error renderings stand for the real ones (a locale date string, and
"Error: message"); like the real ones they have no numeric prefix. -/
def Value.toStringJS : Value → String
  | .num n => jsNumToString n
  | .str s => s
  | .bool true => "true"
  | .bool false => "false"
  | .date r => "Date(" ++ toString r ++ ")"
  | .err _ m => "Error: " ++ m

/-- Accumulate a run of leading decimal digits: returns the value read, the
number of digits consumed, and the rest of the input. -/
def takeDigits (acc count : ℕ) : List Char → ℕ × ℕ × List Char
  | [] => (acc, count, [])
  | c :: cs =>
    if c.isDigit then takeDigits (acc * 10 + (c.toNat - 48)) (count + 1) cs
    else (acc, count, c :: cs)

/-- Exponent part of a numeric literal ('e' or 'E', optional sign, digits).
If no digit follows, nothing is consumed (parseFloat backtracks). -/
def takeExponent (cs : List Char) : ℤ × List Char :=
  match cs with
  | 'e' :: rest => takeSigned rest cs
  | 'E' :: rest => takeSigned rest cs
  | _ => (0, cs)
where
  takeSigned (after orig : List Char) : ℤ × List Char :=
    match after with
    | '-' :: r =>
      let (v, n, rest) := takeDigits 0 0 r
      if n = 0 then (0, orig) else (-(v : ℤ), rest)
    | '+' :: r =>
      let (v, n, rest) := takeDigits 0 0 r
      if n = 0 then (0, orig) else ((v : ℤ), rest)
    | _ =>
      let (v, n, rest) := takeDigits 0 0 after
      if n = 0 then (0, orig) else ((v : ℤ), rest)

/-- Longest numeric prefix of a character list, JavaScript parseFloat style:
leading whitespace, an optional sign, then Infinity or a decimal literal with
optional fraction and exponent.  Returns NaN and the original input when no
numeric prefix exists. -/
def parseNumPrefix (input : List Char) : JSNum × List Char :=
  let cs := input.dropWhile fun c => c == ' ' || c == '\t' || c == '\n' || c == '\r'
  let (sgn, cs1) : ℤ × List Char :=
    match cs with
    | '-' :: rest => (-1, rest)
    | '+' :: rest => (1, rest)
    | _ => (1, cs)
  let infinityPrefix : Bool :=
    match cs1 with
    | 'I' :: 'n' :: 'f' :: 'i' :: 'n' :: 'i' :: 't' :: 'y' :: _ => true
    | _ => false
  if infinityPrefix then
    (if sgn = 1 then .posInf else .negInf, cs1.drop 8)
  else
    let (ip, n1, cs2) := takeDigits 0 0 cs1
    let (fp, n2, cs3) :=
      match cs2 with
      | '.' :: rest => takeDigits 0 0 rest
      | _ => (0, 0, cs2)
    if n1 + n2 = 0 then (.nan, input)
    else
      let (ex, cs4) := takeExponent cs3
      let mantissa : Frac := ⟨sgn * ((ip : ℤ) * pow10 n2 + (fp : ℤ)), pow10 n2⟩
      let scaled : Frac :=
        if 0 ≤ ex then ⟨mantissa.num * pow10 ex.toNat, mantissa.den⟩
        else ⟨mantissa.num, mantissa.den * pow10 (-ex).toNat⟩
      (.finite scaled, cs4)

/-- JavaScript parseFloat applied to a value: convert to text, then read the
longest numeric prefix; NaN when there is none. -/
def jsParseFloat (v : Value) : JSNum :=
  (parseNumPrefix v.toStringJS.data).1

/-- parseNumMaybe from the source (functions.js): true becomes 1, false
becomes 0, a value whose text has a numeric prefix becomes that number, and
any other value is returned unchanged. -/
def parseNumMaybe (value : Value) : Value :=
  if value = .bool true then .num (.finite (Frac.ofInt 1))
  else if value = .bool false then .num (.finite (Frac.ofInt 0))
  else
    let parsed := jsParseFloat value
    if parsed.isNaN then value else .num parsed

/-- A cell of a sparse array: none is a hole, a deleted entry, or undefined. -/
abbrev Cell := Option Value

/-- A sparse row: entries are cells, length is the JavaScript array length. -/
abbrev Row := List Cell

/-- The sparse outer array of rows: none is a missing row. -/
abbrev Grid := List (Option Row)

/-- JavaScript a[i]: none when the index is beyond the length or a hole. -/
def jsGet {α : Type} (l : List (Option α)) (i : Nat) : Option α :=
  (l.get? i).join

/-- JavaScript a[i] = v: assigns in place, padding with holes when the index
is at or beyond the length. -/
def jsSet {α : Type} : List (Option α) → Nat → Option α → List (Option α)
  | [], 0, v => [v]
  | [], n + 1, v => none :: jsSet [] n v
  | _ :: rest, 0, v => v :: rest
  | x :: rest, n + 1, v => x :: jsSet rest n v

/-- The row at an index, when present (JavaScript row in g, then g[row]). -/
def getRow (g : Grid) (row : Nat) : Option Row := jsGet g row

/-- The value at a position: none when the row is missing or the cell is a
hole. -/
def getCell (g : Grid) (row col : Nat) : Option Value :=
  match getRow g row with
  | some r => jsGet r col
  | none => none

/-- this.data[row] = this.data[row] || []: materialise a missing row as an
empty array; leave a present row alone. -/
def ensureRow (g : Grid) (row : Nat) : Grid :=
  match getRow g row with
  | some _ => g
  | none => jsSet g row (some [])

/-- g[row][col] = v, after the row has been materialised. -/
def setCell (g : Grid) (row col : Nat) (v : Value) : Grid :=
  let g' := ensureRow g row
  match getRow g' row with
  | some r => jsSet g' row (some (jsSet r col (some v)))
  | none => g'

/-- delete g[row][col]: clears the entry without changing the length; a
no-op when the row is missing or the index is beyond the length. -/
def deleteCell (g : Grid) (row col : Nat) : Grid :=
  match getRow g row with
  | some r => if col < r.length then jsSet g row (some (r.set col none)) else g
  | none => g

/-- JavaScript arr.splice(idx, 0, v): insert at the index, clamped to the
length. -/
def jsSpliceInsert {α : Type} (l : List α) (idx : Nat) (v : α) : List α :=
  l.take idx ++ [v] ++ l.drop idx

/-- JavaScript arr.splice(idx, 1): remove the entry at the index; removes
nothing when the index is at or beyond the length. -/
def jsSpliceRemove {α : Type} (l : List α) (idx : Nat) : List α :=
  l.take idx ++ l.drop (idx + 1)

/-- indexOf followed by a one-element splice: remove the first occurrence,
if any. -/
def removeFirst (l : List CellID) (x : CellID) : List CellID :=
  match l with
  | [] => []
  | y :: rest => if y = x then rest else y :: removeFirst rest x

/-- Write a key in an association list, preserving insertion order as a
JavaScript object does: replace the first binding, or append a new one. -/
def setKey {α : Type} (k : CellID) (v : α) : List (CellID × α) → List (CellID × α)
  | [] => [(k, v)]
  | (k', v') :: rest => if k' = k then (k, v) :: rest else (k', v') :: setKey k v rest

/-- One emission on one of the instance's Emitter channels, in order. -/
inductive Event where
  | consoleLog (msg : String)
  | consoleWarn (msg : String)
  | consoleError (msg : String)
  | valueUpdate (id : CellID) (v : Value)
  | calcUpdate (id : CellID) (v : Value)
deriving DecidableEq, Repr

/-- The state of one WebSheet instance (the class of part_000), headless and
context-free.  dependencies maps a cell to the cells that consume it;
dependants maps a cell to the cells it reads (the source's own comments).
The three pass-scoped fields are null (none) outside a propagation pass.
nextRef allocates reference tags for freshly constructed Error objects;
events records every Emitter firing in order. -/
structure Sheet where
  height : Nat
  width : Nat
  iterate : Bool
  maxIterations : Nat
  iterationEpsilon : Frac
  data : Grid
  calculated : Grid
  dependencies : List (CellID × List CellID)
  dependants : List (CellID × List CellID)
  calculationSemaphore : Option (List (CellID × Nat))
  calculationSourceGraph : Option (List (CellID × List CellID))
  depUpdateQueue : Option (List CellID)
  nextRef : Nat
  events : List Event
deriving DecidableEq, Repr

/-- The constructor with explicit configuration: both stores start empty,
both edge maps empty, no pass active. -/
def Sheet.make (height width : Nat) (iterate : Bool) (maxIterations : Nat)
    (iterationEpsilon : Frac) : Sheet :=
  { height := height, width := width, iterate := iterate,
    maxIterations := maxIterations, iterationEpsilon := iterationEpsilon,
    data := [], calculated := [], dependencies := [], dependants := [],
    calculationSemaphore := none, calculationSourceGraph := none,
    depUpdateQueue := none, nextRef := 0, events := [] }

/-- new WebSheet() with defaultParams. -/
def defaultSheet : Sheet := Sheet.make 6 6 true 1000 (Frac.mk 1 1000)

/-- The consumer list recorded for a cell (empty when no entry exists). -/
def consumersOf (s : Sheet) (id : CellID) : List CellID :=
  (s.dependencies.lookup id).getD []

/-- The source list recorded for a cell (empty when no entry exists). -/
def sourcesOf (s : Sheet) (id : CellID) : List CellID :=
  (s.dependants.lookup id).getD []

/-- No propagation pass is active: all three pass-scoped fields are null. -/
def passInactive (s : Sheet) : Prop :=
  s.calculationSemaphore = none ∧ s.calculationSourceGraph = none ∧
    s.depUpdateQueue = none

/-- A parsed expression, per the spec's ExpressionEngine contract: evaluation
against the grid (which may raise an EvaluationFault), and enumeration of the
same-grid cell references in discovery order.  Cross-grid references are
absent in this context-free model. -/
structure ParsedExpr where
  run : Sheet → Except String Value
  cellDeps : List CellID

/-- The external expression engine: compiles formula text, raising a
SyntaxFault (the Except error) on bad input. -/
structure Engine where
  parse : String → Except String ParsedExpr

/-- Result of running an operation that can propagate a JavaScript
exception.  fuelOut is an artefact of the bounded recursion used to model
the drain loop; with adequate fuel it never occurs. -/
inductive Res (α : Type) where
  | ok (a : α)
  | thrown (msg : String)
  | fuelOut
deriving Repr, DecidableEq

/-- forceRerender of the headless instance: logs and does nothing else. -/
def forceRerender (s : Sheet) : Sheet :=
  { s with events := s.events ++ [.consoleLog "Rerender ignored in headless websheet"] }

/-- addColumn: widens the declared width only; existing rows are untouched. -/
def addColumn (s : Sheet) (rerender : Bool := true) : Sheet :=
  let s := { s with width := s.width + 1 }
  if rerender then forceRerender s else s

/-- addRow: extends the declared height and pushes one fresh row of holes
(new Array(width)) onto each store. -/
def addRow (s : Sheet) (rerender : Bool := true) : Sheet :=
  let s := { s with height := s.height + 1,
                    data := s.data ++ [some (List.replicate s.width none)],
                    calculated := s.calculated ++ [some (List.replicate s.width none)] }
  if rerender then forceRerender s else s

/-- The per-row splice of insertColumnBefore, applied to row indices
0 ≤ i < height, skipping missing rows. -/
def spliceRowsInsert (g : Grid) (height idx : Nat) : Grid :=
  (List.range height).foldl
    (fun g i =>
      match getRow g i with
      | some r => jsSet g i (some (jsSpliceInsert r idx none))
      | none => g) g

/-- insertColumnBefore(idx): widens the declared width and splices a null
entry into each present row at the index. -/
def insertColumnBefore (s : Sheet) (idx : Nat) : Sheet :=
  let s := { s with width := s.width + 1 }
  let s := { s with data := spliceRowsInsert s.data s.height idx,
                    calculated := spliceRowsInsert s.calculated s.height idx }
  forceRerender s

/-- insertRowBefore(idx): extends the declared height and splices one fresh
row of holes into each store at the index. -/
def insertRowBefore (s : Sheet) (idx : Nat) : Sheet :=
  let s := { s with height := s.height + 1 }
  let newRow : Option Row := some (List.replicate s.width none)
  let s := { s with data := jsSpliceInsert s.data idx newRow,
                    calculated := jsSpliceInsert s.calculated idx newRow }
  forceRerender s

/-- The per-row pop of popColumn: pop the last entry of each present row
longer than the (already decremented) width. -/
def popRowsCells (g : Grid) (height width : Nat) : Grid :=
  (List.range height).foldl
    (fun g i =>
      match getRow g i with
      | some r => if width < r.length then jsSet g i (some r.dropLast) else g
      | none => g) g

/-- popColumn: fails when the current width is below 2; otherwise decrements
the width and pops overlong rows. -/
def popColumn (s : Sheet) : Res Sheet :=
  if s.width < 2 then .thrown "Cannot make spreadsheet that small"
  else
    let s := { s with width := s.width - 1 }
    let s := { s with data := popRowsCells s.data s.height s.width,
                      calculated := popRowsCells s.calculated s.height s.width }
    .ok (forceRerender s)

/-- popRow: fails when the current height is below 2; otherwise decrements
the height and pops the last row of each store. -/
def popRow (s : Sheet) : Res Sheet :=
  if s.height < 2 then .thrown "Cannot make spreadsheet that small"
  else
    .ok (forceRerender { s with height := s.height - 1,
                                data := s.data.dropLast,
                                calculated := s.calculated.dropLast })

/-- The per-row splice of removeColumn, applied to row indices
0 ≤ i < height, skipping missing rows. -/
def spliceRowsRemove (g : Grid) (height idx : Nat) : Grid :=
  (List.range height).foldl
    (fun g i =>
      match getRow g i with
      | some r => jsSet g i (some (jsSpliceRemove r idx))
      | none => g) g

/-- removeColumn(idx): fails when the width is below 2 or the index is
outside 0 ≤ idx < width; otherwise decrements the width and splices the
column out of each present row. -/
def removeColumn (s : Sheet) (idx : ℤ) : Res Sheet :=
  if s.width < 2 then .thrown "Cannot make spreadsheet that small"
  else if idx < 0 ∨ (s.width : ℤ) ≤ idx then .thrown "Removing cells that do not exist"
  else
    let s := { s with width := s.width - 1 }
    let s := { s with data := spliceRowsRemove s.data s.height idx.toNat,
                      calculated := spliceRowsRemove s.calculated s.height idx.toNat }
    .ok (forceRerender s)

/-- removeRow(i): fails when the height is below 2; the range check compares
the row index against this.width, exactly as the source does (line 313);
then decrements the height and splices the row out of both stores. -/
def removeRow (s : Sheet) (i : ℤ) : Res Sheet :=
  if s.height < 2 then .thrown "Cannot make spreadsheet that small"
  else if i < 0 ∨ (s.width : ℤ) ≤ i then .thrown "Removing cells that do not exist"
  else
    .ok (forceRerender { s with height := s.height - 1,
                                data := jsSpliceRemove s.data i.toNat,
                                calculated := jsSpliceRemove s.calculated i.toNat })

/-- formatValue: strings pass through; numbers map infinities to the
division-by-zero marker, NaN to the value-error marker, and finite values to
their decimal text; booleans to TRUE/FALSE; Dates to locale text (rendered
by an opaque injective stand-in); Errors to their message. -/
def formatValue (_cellID : CellID) (value : Value) : String :=
  match value with
  | .str v => v
  | .num .posInf => "#DIV/0!"
  | .num .negInf => "#DIV/0!"
  | .num .nan => "#VALUE!"
  | .num (.finite q) => jsNumToString (.finite q)
  | .bool b => if b then "TRUE" else "FALSE"
  | .date r => "Date(" ++ toString r ++ ").toLocaleString"
  | .err _ m => m

/-- getCalculatedValueAtPos: the calculated entry when the row is present
and the entry is neither null nor undefined, else the raw entry under the
same conditions, else 0; a found value passes through parseNumMaybe. -/
def getCalculatedValueAtPos (s : Sheet) (row col : Nat) : Value :=
  match getCell s.calculated row col with
  | some v => parseNumMaybe v
  | none =>
    match getCell s.data row col with
    | some v => parseNumMaybe v
    | none => .num (.finite (Frac.ofInt 0))

/-- One iteration of the clearDependants loop (lines 170-175): remove the
cell from this source's consumer list (first occurrence, via
indexOf/splice), skipping sources with no consumer entry. -/
def removeConsumerStep (id : CellID) (s : Sheet) (dep : CellID) : Sheet :=
  match s.dependencies.lookup dep with
  | none => s
  | some remDeps =>
    { s with dependencies := setKey dep (removeFirst remDeps id) s.dependencies }

/-- clearDependants: walk the cell's recorded sources and remove the cell
from each source's consumer list.  The cell's own source list is left as it
is.  The trailing cross-grid unsubscribe is a no-op in this context-free
model. -/
def clearDependants (s : Sheet) (id : CellID) : Sheet :=
  match s.dependants.lookup id with
  | none => s
  | some deps => deps.foldl (removeConsumerStep id) s

/-- clearCell: delete both stored entries, sever the cell's outgoing edges,
then reset its recorded source list to empty. -/
def clearCell (s : Sheet) (row col : Nat) : Sheet :=
  let cellID := getCellID row col
  let s := { s with data := deleteCell s.data row col }
  let s := { s with calculated := deleteCell s.calculated row col }
  let s := clearDependants s cellID
  { s with dependants := setKey cellID [] s.dependants }

/-- JavaScript Number() of a string (used by ToNumber during subtraction):
whitespace-only text is 0, otherwise the whole trimmed text must be a
numeric literal.  (Hex literals are not modelled; no claim depends on
them.) -/
def jsNumberOfString (str : String) : JSNum :=
  let isWS := fun (c : Char) => c == ' ' || c == '\t' || c == '\n' || c == '\r'
  let cs := (((str.data.dropWhile isWS).reverse.dropWhile isWS).reverse : List Char)
  if cs.isEmpty then .finite (Frac.ofInt 0)
  else
    let (v, rest) := parseNumPrefix cs
    if rest.isEmpty then v else .nan

/-- JavaScript ToNumber of a value, as applied by the subtraction operator.
A Date converts to its millisecond value in JavaScript; it is rendered NaN
here, which is observationally equal in this development: the conversion is
only reached for two strictly-equal values, whose difference is 0 either
way as far as the epsilon comparison is concerned. -/
def Value.toNumber : Value → JSNum
  | .num n => n
  | .str s => jsNumberOfString s
  | .bool true => .finite (Frac.ofInt 1)
  | .bool false => .finite (Frac.ofInt 0)
  | .date _ => .nan
  | .err _ _ => .nan

/-- JavaScript strict inequality between a possibly-undefined cached value
and a value: undefined is unequal to every stored value. -/
def jsNeq (orig : Option Value) (v : Value) : Bool :=
  match orig with
  | none => true
  | some w => !(w.strictEq v)

/-- origCalculatedValue - value under JavaScript coercion: undefined
converts to NaN. -/
def subToNum (orig : Option Value) (v : Value) : JSNum :=
  JSNum.sub (match orig with | none => .nan | some w => w.toNumber) v.toNumber

/-- The convergence test of calculateValueAtPosition, lines 99-102 of the
source, exactly as written: updated when the values are strictly unequal OR
when the absolute difference exceeds the epsilon. -/
def wasUpdatedCheck (orig : Option Value) (v : Value) (eps : Frac) : Bool :=
  jsNeq orig v || (subToNum orig v).abs.gtQ eps

/-- The cycle-detection guard of calculateValueAtPosition (lines 71-83):
when a semaphore exists, a cell over the iteration cap draws a warning and
aborts (second component false); otherwise its counter is incremented or
initialised to 1. -/
def guardStep (s : Sheet) (cellID : CellID) : Sheet × Bool :=
  match s.calculationSemaphore with
  | none => (s, true)
  | some sem =>
    match sem.lookup cellID with
    | some n =>
      if s.maxIterations < n then
        ({ s with events := s.events ++
            [.consoleWarn "Circular reference hit max iteration limit"] }, false)
      else
        ({ s with calculationSemaphore := some (setKey cellID (n + 1) sem) }, true)
    | none => ({ s with calculationSemaphore := some (setKey cellID 1 sem) }, true)

/-- The findCellDependencies callback (lines 114-126), folded over the
expression's same-grid references in discovery order: deduplicate into the
local dependants list and add this cell to each source's consumer list if
absent. -/
def bindDepsAux (cellID : CellID) (s : Sheet) (acc : List CellID) :
    List CellID → Sheet × List CellID
  | [] => (s, acc)
  | dep :: rest =>
    if acc.contains dep then bindDepsAux cellID s acc rest
    else
      let acc := acc ++ [dep]
      let s :=
        match s.dependencies.lookup dep with
        | none => { s with dependencies := setKey dep [cellID] s.dependencies }
        | some deps =>
          if deps.contains cellID then s
          else { s with dependencies := setKey dep (deps ++ [cellID]) s.dependencies }
      bindDepsAux cellID s acc rest

/-- Same-grid edge binding for a freshly calculated cell. -/
def bindDeps (s : Sheet) (cellID : CellID) (found : List CellID) :
    Sheet × List CellID :=
  bindDepsAux cellID s [] found

/-- One iteration of the nested-branch loop of updateDependencies (lines
355-382) for one consumer: record provenance when a source graph exists; in
strict mode an edge already recorded draws a cyclic-reference diagnostic and
skips the enqueue; otherwise the consumer is enqueued unless already
queued. -/
def enqueueDep (cellID : CellID) (s : Sheet) (dep : CellID) : Sheet :=
  let banned :=
    match s.calculationSourceGraph with
    | some graph =>
      match graph.lookup dep with
      | some srcs => !s.iterate && srcs.contains cellID
      | none => false
    | none => false
  if banned then
    { s with events := s.events ++
        [.consoleError ("Cyclic reference banned at " ++ showCellID cellID ++
          " -> " ++ showCellID dep)] }
  else
    let s :=
      match s.calculationSourceGraph with
      | some graph =>
        match graph.lookup dep with
        | some srcs =>
          { s with calculationSourceGraph := some (setKey dep (srcs ++ [cellID]) graph) }
        | none =>
          { s with calculationSourceGraph := some (setKey dep [cellID] graph) }
      | none => s
    match s.depUpdateQueue with
    | some q => if q.contains dep then s else { s with depUpdateQueue := some (q ++ [dep]) }
    | none => s

/-- updateDependencies as it runs while a pass is active: this.depUpdateQueue
is an array (hence truthy), so the call only records provenance and enqueues,
never drains.  When the cell has no consumer entry the call returns at once.
The queue-absent fallthrough of the last match never fires during a drain
(the queue stays an array until the loop ends); the pass-starting branch
lives in updateDependencies below. -/
def updateDepsNoDrain (s : Sheet) (cellID : CellID) : Sheet :=
  match s.dependencies.lookup cellID with
  | none => s
  | some deps => deps.foldl (enqueueDep cellID) s

/-- calculateValueAtPosition (lines 65-152), parameterised by the behaviour
of the updateDependencies call on line 148 so that the same body serves the
top-level call and the calls made from inside a drain.  Faithful order:
falsy-expression return, cycle guard, parse (outside the try), evaluate
(faults caught and replaced by a fresh Error sentinel), convergence check,
cache write, same-grid edge binding, dependants overwrite, dependency
update, calculated-update emission, formatted return. -/
def calcWith (E : Engine) (upd : Sheet → CellID → Res Sheet) (s : Sheet)
    (row col : Nat) (expression : String) : Res (Sheet × Option String) :=
  if expression = "" then .ok (s, none)
  else
    let cellID := getCellID row col
    match guardStep s cellID with
    | (s, false) => .ok (s, none)
    | (s, true) =>
      match E.parse expression with
      | .error m => .thrown m
      | .ok parsed =>
        let (s, value) :=
          match parsed.run s with
          | .ok v => (s, v)
          | .error _ => ({ s with nextRef := s.nextRef + 1 }, .err s.nextRef "#ERROR!")
        let s := { s with calculated := ensureRow s.calculated row }
        let orig := getCell s.calculated row col
        if !(wasUpdatedCheck orig value s.iterationEpsilon) then .ok (s, none)
        else
          let s := { s with calculated := setCell s.calculated row col value }
          let (s, deps) := bindDeps s cellID parsed.cellDeps
          let s := { s with dependants := setKey cellID deps s.dependants }
          match upd s cellID with
          | .ok s =>
            let s := { s with events := s.events ++ [.calcUpdate cellID value] }
            .ok (s, some (formatValue cellID value))
          | .thrown m => .thrown m
          | .fuelOut => .fuelOut

/-- calculateValueAtPosition as invoked from inside an active drain, where
the updateDependencies call can only take the nested (enqueue-only)
branch. -/
def calcInPass (E : Engine) (s : Sheet) (row col : Nat) (expression : String) :
    Res (Sheet × Option String) :=
  calcWith E (fun s id => .ok (updateDepsNoDrain s id)) s row col expression

/-- The drain loop of updateDependencies (lines 392-396): while the queue is
non-empty, shift a consumer, resolve its stored formula text (a TypeError
propagates when the cell does not hold a string) and recalculate it.  fuel
bounds the number of iterations; passFuel below is always enough. -/
def drainQueue (E : Engine) (fuel : Nat) (s : Sheet) : Res Sheet :=
  match fuel with
  | 0 => .fuelOut
  | fuel + 1 =>
    match s.depUpdateQueue with
    | some (dep :: rest) =>
      let s := { s with depUpdateQueue := some rest }
      let (row, col) := getCellPos dep
      match getCell s.data row col with
      | some (.str t) =>
        match calcInPass E s row col (t.drop 1) with
        | .ok (s, _) => drainQueue E fuel s
        | .thrown m => .thrown m
        | .fuelOut => .fuelOut
      | _ => .thrown "TypeError"
    | _ => .ok s

/-- updateDependencies (lines 347-401).  No consumer entry: return.  Pass
already active (queue is an array): record provenance and enqueue only.
Otherwise start a pass: a provenance graph in strict mode, a semaphore
seeded with this cell at 1, the queue seeded with the consumers; drain; then
clear all three pass-scoped fields. -/
def updateDependencies (E : Engine) (fuel : Nat) (s : Sheet) (cellID : CellID) :
    Res Sheet :=
  match s.dependencies.lookup cellID with
  | none => .ok s
  | some deps =>
    match s.depUpdateQueue with
    | some _ => .ok (updateDepsNoDrain s cellID)
    | none =>
      let s := if s.iterate then s else { s with calculationSourceGraph := some [] }
      let s := { s with calculationSemaphore := some [(cellID, 1)],
                        depUpdateQueue := some deps }
      match drainQueue E fuel s with
      | .ok s =>
        .ok { s with calculationSourceGraph := none, calculationSemaphore := none,
                     depUpdateQueue := none }
      | .thrown m => .thrown m
      | .fuelOut => .fuelOut

/-- calculateValueAtPosition with the real updateDependencies on line 148
(the form used by setValueAtPosition and by external callers). -/
def calculateValueAtPosition (E : Engine) (fuel : Nat) (s : Sheet)
    (row col : Nat) (expression : String) : Res (Sheet × Option String) :=
  calcWith E (fun s id => updateDependencies E fuel s id) s row col expression

/-- Does the raw value carry the formula marker (value[0] === '=')? -/
def isFormulaValue : Value → Bool
  | .str t =>
    match t.data with
    | c :: _ => c == '='
    | [] => false
  | _ => false

/-- value.substr(1): the formula text after the marker. -/
def formulaBody : Value → String
  | .str t => t.drop 1
  | _ => ""

/-- setValueAtPosition (lines 321-345): no-op returning false when the raw
value is strictly equal and force is unset; otherwise store the raw value,
evict the calculated entry, sever outgoing edges, emit the raw-value
notification, then either evaluate (formula-marked value) or propagate to
existing consumers. -/
def setValueAtPosition (E : Engine) (fuel : Nat) (s : Sheet) (row col : Nat)
    (value : Value) (force : Bool := false) : Res (Sheet × Bool) :=
  let cellID := getCellID row col
  let s := { s with data := ensureRow s.data row }
  if !(jsNeq (getCell s.data row col) value) && !force then .ok (s, false)
  else
    let s := { s with data := setCell s.data row col value }
    let s :=
      match getRow s.calculated row with
      | some _ => { s with calculated := deleteCell s.calculated row col }
      | none => s
    let s := clearDependants s cellID
    let s := { s with events := s.events ++ [.valueUpdate cellID value] }
    if isFormulaValue value then
      match calculateValueAtPosition E fuel s row col (formulaBody value) with
      | .ok (s, _) => .ok (s, true)
      | .thrown m => .thrown m
      | .fuelOut => .fuelOut
    else
      match updateDependencies E fuel s cellID with
      | .ok s => .ok (s, true)
      | .thrown m => .thrown m
      | .fuelOut => .fuelOut

/-- The sheet, when an operation returned normally with a pair result. -/
def resSheet {α : Type} : Res (Sheet × α) → Option Sheet
  | .ok (s, _) => some s
  | _ => none

/-- The sheet, when an operation returned normally with a sheet result. -/
def resSheet1 : Res Sheet → Option Sheet
  | .ok s => some s
  | _ => none

/-- Read a cell of the calculated store as a number, defaulting to 0: the
read primitive used by the concrete scenario engines below. -/
def cellVal (s : Sheet) (row col : Nat) : JSNum :=
  match getCell s.calculated row col with
  | some (.num n) => n
  | _ => .finite (Frac.ofInt 0)

/-- Scenario engine for the convergence claim: formula text F evaluates to
the constant 2001/2000 with no references; formula text A reads cell (0,0). -/
def engineC1 : Engine where
  parse := fun t =>
    if t = "F" then .ok { run := fun _ => .ok (.num (.finite (Frac.mk 2001 2000))), cellDeps := [] }
    else if t = "A" then .ok { run := fun s => .ok (.num (cellVal s 0 0)), cellDeps := [(0, 0)] }
    else .error "SyntaxFault"

/-- Scenario state for the convergence claim: cell (0,0) has cached
calculated value 1; cell (0,1) holds the formula =A reading it, is recorded
as its consumer, and also has cached value 1. -/
def sheetC1 : Sheet :=
  { Sheet.make 2 2 true 1000 (Frac.mk 1 1000) with
      data := [some [none, some (.str "=A")]],
      calculated := [some [some (.num (.finite (Frac.ofInt 1))), some (.num (.finite (Frac.ofInt 1)))]],
      dependencies := [((0, 0), [(0, 1)])],
      dependants := [((0, 1), [(0, 0)])] }

/-- Scenario engine for the edge-map claim: formula text B evaluates to the
constant 7 and reads cell (0,1). -/
def engineC2 : Engine where
  parse := fun t =>
    if t = "B" then .ok { run := fun _ => .ok (.num (.finite (Frac.ofInt 7))), cellDeps := [(0, 1)] }
    else .error "SyntaxFault"

/-- An engine on which every compile raises a SyntaxFault. -/
def engineBad : Engine where
  parse := fun _ => .error "SyntaxFault"

/-- An engine on which every compile succeeds with no references and whose
evaluation always raises an EvaluationFault. -/
def engineThrows : Engine where
  parse := fun _ => .ok { run := fun _ => .error "EvaluationFault", cellDeps := [] }

/-- A fully materialised 3-row, 6-column sheet. -/
def sheetC4a : Sheet :=
  { Sheet.make 3 6 true 1000 (Frac.mk 1 1000) with
      data := List.replicate 3 (some (List.replicate 6 none)),
      calculated := List.replicate 3 (some (List.replicate 6 none)) }

/-- A fully materialised 3-row, 2-column sheet. -/
def sheetC4b : Sheet :=
  { Sheet.make 3 2 true 1000 (Frac.mk 1 1000) with
      data := List.replicate 3 (some (List.replicate 2 none)),
      calculated := List.replicate 3 (some (List.replicate 2 none)) }

/-- A fully materialised 2-by-2 sheet. -/
def sheetC5 : Sheet :=
  { Sheet.make 2 2 true 1000 (Frac.mk 1 1000) with
      data := List.replicate 2 (some (List.replicate 2 none)),
      calculated := List.replicate 2 (some (List.replicate 2 none)) }

/-- Do the two stores have exactly height present rows of exactly width
entries each, as invariant (b) of the spec demands? -/
def dimsOkB (s : Sheet) : Bool :=
  s.data.length == s.height && s.calculated.length == s.height &&
  s.data.all (fun r => match r with | some l => l.length == s.width | none => false) &&
  s.calculated.all (fun r => match r with | some l => l.length == s.width | none => false)

/-- Scenario engine for the strict-mode cycle: formula text A+1 reads cell
(0,0) and adds one; formula text B+1 reads cell (0,1) and adds one. -/
def engineC6 : Engine where
  parse := fun t =>
    if t = "A+1" then
      .ok { run := fun s => .ok (.num ((cellVal s 0 0).add (.finite (Frac.ofInt 1)))), cellDeps := [(0, 0)] }
    else if t = "B+1" then
      .ok { run := fun s => .ok (.num ((cellVal s 0 1).add (.finite (Frac.ofInt 1)))), cellDeps := [(0, 1)] }
    else .error "SyntaxFault"

/-- A 2-by-2 sheet in strict mode (iteration disabled). -/
def c6s0 : Sheet := Sheet.make 2 2 false 1000 (Frac.mk 1 1000)

/-- Is this emission a cyclic-reference diagnostic?  (The console error
channel carries only those in this code.) -/
def isCyclicError : Event → Bool
  | .consoleError _ => true
  | _ => false

/-- Number of cyclic-reference diagnostics in an event log. -/
def cyclicErrorCount (evs : List Event) : Nat :=
  (evs.filter isCyclicError).length

/-- ValueFormatter written from the spec's and the claim's words, together
with the string case the code actually has: infinities to the
division-by-zero marker, NaN to the value-error marker, other numbers to
canonical numeric text, booleans to TRUE/FALSE, temporals to locale text,
compute errors to their message, text to itself. -/
def formatSpec (v : Value) : String :=
  match v with
  | .num n =>
    if n = .posInf ∨ n = .negInf then "#DIV/0!"
    else if n.isNaN then "#VALUE!"
    else jsNumToString n
  | .bool b => if b then "TRUE" else "FALSE"
  | .date r => "Date(" ++ toString r ++ ").toLocaleString"
  | .err _ m => m
  | .str t => t

/-- The coercion of the calculated-read claim, written from the claim's
words: true to 1, false to 0, a value whose text parses as a number to that
number, anything else unchanged. -/
def parseNumMaybeSpec (v : Value) : Value :=
  match v with
  | .bool true => .num (.finite (Frac.ofInt 1))
  | .bool false => .num (.finite (Frac.ofInt 0))
  | _ =>
    match jsParseFloat v with
    | .nan => v
    | n => .num n

/-- The calculated-read of the claim, written from the claim's words: 0 when
neither store has a value present, otherwise the coercion of the calculated
value when present, else of the raw value. -/
def getCalcSpec (calcCell rawCell : Option Value) : Value :=
  match calcCell with
  | some v => parseNumMaybeSpec v
  | none =>
    match rawCell with
    | some v => parseNumMaybeSpec v
    | none => .num (.finite (Frac.ofInt 0))

/-- The sheet after the two-edit sequence of the edge-map counterexample:
write the formula =B into (0,0), then overwrite it with the plain text 5. -/
def c2final : Option Sheet :=
  (resSheet (setValueAtPosition engineC2 99 (Sheet.make 2 2 true 1000 (Frac.mk 1 1000))
      0 0 (.str "=B") false)).bind
    fun s1 => resSheet (setValueAtPosition engineC2 99 s1 0 0 (.str "5") false)

/-- The sheet after the two-edit strict-mode cycle sequence: (0,1) gets
=A+1, then (0,0) gets =B+1, which triggers the propagation pass. -/
def c6final : Option Sheet :=
  (resSheet (setValueAtPosition engineC6 999 c6s0 0 1 (.str "=A+1") false)).bind
    fun s1 => resSheet (setValueAtPosition engineC6 999 s1 0 0 (.str "=B+1") false)

/-- Concrete state for the clearDependants witness: one recorded edge,
cell (0,0) reading cell (0,1), present in both maps. -/
def c2wState : Sheet :=
  { Sheet.make 2 2 true 1000 (Frac.mk 1 1000) with
      dependencies := [((0, 1), [(0, 0)])]
      dependants := [((0, 0), [(0, 1)])] }

/-- Concrete mid-pass strict-mode state for the cyclic-skip witness: the
provenance graph already records the edge (0,0) -> (0,1). -/
def c6wState : Sheet :=
  { Sheet.make 2 2 false 1000 (Frac.mk 1 1000) with
      calculationSourceGraph := some [((0, 1), [(0, 0)])] }

/-- Every cell that can ever be enqueued during a pass: the union of the
consumer lists recorded when the pass starts.  (Edges bound during the pass
only ever append cells that were themselves dequeued, so this universe is
stable.) -/
def consumerUniverse (s : Sheet) : List CellID :=
  (s.dependencies.map Prod.snd).join

/-- Remaining visitation budget of a pass: each universe cell can pass the
semaphore guard at most maxIterations + 2 times before the guard aborts
it. -/
def semMeasure (maxIt : Nat) (U : List CellID) (m : List (CellID × Nat)) : Nat :=
  (U.map fun c => maxIt + 2 - (m.lookup c).getD 0).sum

/-- Enough fuel for any pass on this sheet: every drain iteration either
pops the queue or spends visitation budget, and the queue length never
exceeds the universe. -/
def passFuel (s : Sheet) : Nat :=
  (s.maxIterations + 2) * (consumerUniverse s).length *
      ((consumerUniverse s).length + 1) +
    (consumerUniverse s).length + 1

/-- Concrete pass-inactive state for the termination witness: one consumer
edge, all three pass-scoped fields null, as between passes. -/
def c7wTop : Sheet :=
  { Sheet.make 2 2 false 1000 (Frac.mk 1 1000) with
      dependencies := [((0, 0), [(0, 1)])] }

/-- Concrete mid-pass state for the guard-abort witness: all three
pass-scoped fields populated, the semaphore entry for cell (0,0) already
past the iteration cap. -/
def c7wMid : Sheet :=
  { Sheet.make 2 2 false 1000 (Frac.mk 1 1000) with
      dependencies := [((0, 0), [(0, 1)])]
      calculationSemaphore := some [((0, 0), 1001)]
      calculationSourceGraph := some []
      depUpdateQueue := some [] }

/-- Reading back the index just written returns the written entry. -/
theorem jsGet_jsSet_self {α : Type} :
    ∀ (l : List (Option α)) (i : Nat) (v : Option α), jsGet (jsSet l i v) i = v := by
  intro l
  induction l with
  | nil =>
    intro i v
    induction i with
    | zero => rfl
    | succ n ih => exact ih
  | cons x rest ih =>
    intro i v
    cases i with
    | zero => rfl
    | succ n => exact ih n v

/-- Writing one index leaves every other index unchanged. -/
theorem jsGet_jsSet_ne {α : Type} (v : Option α) :
    ∀ (i : Nat) (l : List (Option α)) (j : Nat), i ≠ j →
      jsGet (jsSet l i v) j = jsGet l j := by
  intro i
  induction i with
  | zero =>
    intro l j hne
    cases l <;> cases j <;> first | exact absurd rfl hne | rfl
  | succ n ih =>
    intro l j hne
    cases l with
    | nil =>
      cases j with
      | zero => rfl
      | succ m => exact ih [] m fun h => hne (by rw [h])
    | cons x rest =>
      cases j with
      | zero => rfl
      | succ m => exact ih rest m fun h => hne (by rw [h])

/-- The row written by ensureRow never changes any cell read. -/
theorem getCell_ensureRow (g : Grid) (r r' c : Nat) :
    getCell (ensureRow g r) r' c = getCell g r' c := by
  unfold ensureRow
  cases hr : getRow g r with
  | some row => rfl
  | none =>
    unfold getCell getRow
    by_cases h : r = r'
    · subst h
      rw [show jsGet (jsSet g r (some [])) r = some [] from jsGet_jsSet_self g r (some [])]
      unfold getRow at hr
      rw [hr]
      cases c <;> rfl
    · rw [jsGet_jsSet_ne (some []) r g r' h]

/-- ensureRow leaves the target row present. -/
theorem ensureRow_getRow (g : Grid) (r : Nat) :
    ∃ row, getRow (ensureRow g r) r = some row := by
  unfold ensureRow
  cases hg : getRow g r with
  | some row => exact ⟨row, hg⟩
  | none => exact ⟨[], jsGet_jsSet_self g r (some [])⟩

/-- Reading the cell just written returns the written value. -/
theorem getCell_setCell_self (g : Grid) (r c : Nat) (v : Value) :
    getCell (setCell g r c v) r c = some v := by
  obtain ⟨row, hr⟩ := ensureRow_getRow g r
  simp only [setCell]
  rw [hr]
  show getCell (jsSet (ensureRow g r) r (some (jsSet row c (some v)))) r c = some v
  unfold getCell getRow
  rw [jsGet_jsSet_self]
  exact jsGet_jsSet_self row c (some v)

/-- One removal step only rewrites the dependencies map. -/
theorem removeConsumerStep_shape (id : CellID) (s : Sheet) (dep : CellID) :
    ∃ dd, removeConsumerStep id s dep = { s with dependencies := dd } := by
  unfold removeConsumerStep
  cases s.dependencies.lookup dep with
  | none => exact ⟨s.dependencies, rfl⟩
  | some rm => exact ⟨setKey dep (removeFirst rm id) s.dependencies, rfl⟩

/-- The whole removal fold only rewrites the dependencies map. -/
theorem foldl_removeConsumer_shape (id : CellID) :
    ∀ (deps : List CellID) (s : Sheet),
      ∃ dd, deps.foldl (removeConsumerStep id) s = { s with dependencies := dd } := by
  intro deps
  induction deps with
  | nil => intro s; exact ⟨s.dependencies, rfl⟩
  | cons d rest ih =>
    intro s
    obtain ⟨dd0, h0⟩ := removeConsumerStep_shape id s d
    obtain ⟨dd, h⟩ := ih (removeConsumerStep id s d)
    refine ⟨dd, ?_⟩
    rw [List.foldl_cons, h, h0]

/-- clearDependants only rewrites the dependencies map. -/
theorem clearDependants_shape (s : Sheet) (id : CellID) :
    ∃ dd, clearDependants s id = { s with dependencies := dd } := by
  unfold clearDependants
  cases s.dependants.lookup id with
  | none => exact ⟨s.dependencies, rfl⟩
  | some deps => exact foldl_removeConsumer_shape id deps s

/-- The dependency-binding fold only rewrites the dependencies map (and
returns some discovered list). -/
theorem bindDepsAux_shape (cellID : CellID) :
    ∀ (found : List CellID) (s : Sheet) (acc : List CellID),
      ∃ dd l, bindDepsAux cellID s acc found = ({ s with dependencies := dd }, l) := by
  intro found
  induction found with
  | nil => intro s acc; exact ⟨s.dependencies, acc, rfl⟩
  | cons d rest ih =>
    intro s acc
    unfold bindDepsAux
    by_cases hc : acc.contains d = true
    · rw [if_pos hc]; exact ih s acc
    · rw [if_neg hc]
      cases hl : s.dependencies.lookup d with
      | none =>
        simp only [hl]
        obtain ⟨dd, l, h⟩ :=
          ih { s with dependencies := setKey d [cellID] s.dependencies } (acc ++ [d])
        exact ⟨dd, l, h⟩
      | some ds =>
        simp only [hl]
        by_cases hm : ds.contains cellID = true
        · rw [if_pos hm]; exact ih s (acc ++ [d])
        · rw [if_neg hm]
          obtain ⟨dd, l, h⟩ :=
            ih { s with dependencies := setKey d (ds ++ [cellID]) s.dependencies } (acc ++ [d])
          exact ⟨dd, l, h⟩

/-- A successful lookup pinpoints a binding of the association list. -/
theorem lookup_mem {α : Type} (k : CellID) (v : α) :
    ∀ m : List (CellID × α), m.lookup k = some v → (k, v) ∈ m := by
  intro m
  induction m with
  | nil => intro h; cases h
  | cons p rest ih =>
    intro h
    obtain ⟨k0, v0⟩ := p
    rw [List.lookup] at h
    by_cases hb : k = k0
    · rw [beq_iff_eq.mpr hb] at h
      cases h
      subst hb
      exact .head _
    · rw [beq_eq_false_iff_ne.mpr hb] at h
      exact .tail _ (ih h)

/-- Looking up the key just written returns the written value. -/
theorem lookup_setKey_self {α : Type} (k : CellID) (v : α) :
    ∀ m : List (CellID × α), (setKey k v m).lookup k = some v := by
  intro m
  induction m with
  | nil => simp [setKey, List.lookup]
  | cons p rest ih =>
    obtain ⟨k0, v0⟩ := p
    unfold setKey
    by_cases h : k0 = k
    · rw [if_pos h]
      simp [List.lookup]
    · rw [if_neg h]
      rw [List.lookup, beq_eq_false_iff_ne.mpr fun hh => h hh.symm]
      exact ih

/-- Writing one key leaves every other key's binding unchanged. -/
theorem lookup_setKey_ne {α : Type} (k k' : CellID) (v : α) (hne : ¬(k = k')) :
    ∀ m : List (CellID × α), (setKey k v m).lookup k' = m.lookup k' := by
  intro m
  induction m with
  | nil =>
    simp [setKey, List.lookup, beq_eq_false_iff_ne.mpr fun hh => hne hh.symm]
  | cons p rest ih =>
    obtain ⟨k0, v0⟩ := p
    unfold setKey
    by_cases h : k0 = k
    · rw [if_pos h]
      subst h
      rw [List.lookup, List.lookup, beq_eq_false_iff_ne.mpr fun hh => hne hh.symm]
    · rw [if_neg h]
      by_cases h2 : k' = k0
      · subst h2
        rw [List.lookup, List.lookup, beq_iff_eq.mpr rfl]
      · rw [List.lookup, List.lookup, beq_eq_false_iff_ne.mpr fun hh => h2 hh]
        exact ih

/-- Every binding after a write is the written one or an original one. -/
theorem mem_setKey {α : Type} (k : CellID) (v : α) :
    ∀ (m : List (CellID × α)) (p : CellID × α),
      p ∈ setKey k v m → p = (k, v) ∨ p ∈ m := by
  intro m
  induction m with
  | nil =>
    intro p hp
    cases hp with
    | head => exact .inl rfl
    | tail _ h => cases h
  | cons q rest ih =>
    intro p hp
    obtain ⟨k0, v0⟩ := q
    unfold setKey at hp
    by_cases h : k0 = k
    · rw [if_pos h] at hp
      cases hp with
      | head => exact .inl rfl
      | tail _ hp => exact .inr (.tail _ hp)
    · rw [if_neg h] at hp
      cases hp with
      | head => exact .inr (.head _)
      | tail _ hp =>
        rcases ih p hp with h1 | h2
        · exact .inl h1
        · exact .inr (.tail _ h2)

/-- Removing the first occurrence yields a sublist. -/
theorem removeFirst_sublist (x : CellID) :
    ∀ l : List CellID, (removeFirst l x).Sublist l := by
  intro l
  induction l with
  | nil => exact .slnil
  | cons y rest ih =>
    unfold removeFirst
    by_cases h : y = x
    · rw [if_pos h]
      exact List.sublist_cons_self y rest
    · rw [if_neg h]
      exact List.Sublist.cons₂ y ih

/-- On a duplicate-free list, removing the first occurrence removes the
element entirely. -/
theorem not_mem_removeFirst (x : CellID) :
    ∀ l : List CellID, l.Nodup → x ∉ removeFirst l x := by
  intro l
  induction l with
  | nil => intro _ h; cases h
  | cons y rest ih =>
    intro hnd
    unfold removeFirst
    by_cases h : y = x
    · rw [if_pos h]
      subst h
      exact (List.nodup_cons.mp hnd).1
    · rw [if_neg h]
      have hx := ih (List.nodup_cons.mp hnd).2
      intro hmem
      rcases List.mem_cons.mp hmem with h1 | h2
      · exact h h1.symm
      · exact hx h2

/-- Helper: the code's parseNumMaybe agrees with the claim-side coercion. -/
theorem parseNumMaybe_eq_spec (v : Value) : parseNumMaybe v = parseNumMaybeSpec v := by
  cases v with
  | bool b => cases b <;> rfl
  | num n =>
    simp only [parseNumMaybe, parseNumMaybeSpec]
    cases jsParseFloat (Value.num n) <;> simp [JSNum.isNaN]
  | str t =>
    simp only [parseNumMaybe, parseNumMaybeSpec]
    cases jsParseFloat (Value.str t) <;> simp [JSNum.isNaN]
  | date r =>
    simp only [parseNumMaybe, parseNumMaybeSpec]
    cases jsParseFloat (Value.date r) <;> simp [JSNum.isNaN]
  | err r m =>
    simp only [parseNumMaybe, parseNumMaybeSpec]
    cases jsParseFloat (Value.err r m) <;> simp [JSNum.isNaN]

/-- Claim C1 (code_bug evaluation).  With cached calculated value 1, a newly
computed numeric value 2001/2000, and iterationEpsilon 1/1000, the absolute
difference 1/2000 lies within the epsilon, so the claim demands the result
be treated as unchanged with no cache write and no consumer enqueued.  The
code instead treats every strictly-unequal value as updated (the
convergence test joins its two conditions with OR, making the epsilon
condition unreachable), writes 2001/2000 to the cache of (0,0), and
propagates: the registered consumer (0,1) is recalculated to 2001/2000. -/
theorem C1_epsilon_ignored_run :
    |(Frac.ofInt 1).toRat - (Frac.mk 2001 2000).toRat| ≤ sheetC1.iterationEpsilon.toRat ∧
    (Frac.ofInt 1).toRat ≠ (Frac.mk 2001 2000).toRat ∧
    ((resSheet (calculateValueAtPosition engineC1 99 sheetC1 0 0 "F")).map
        fun s' => (getCell s'.calculated 0 0, getCell s'.calculated 0 1)) =
      some (some (.num (.finite (Frac.mk 2001 2000))),
            some (.num (.finite (Frac.mk 2001 2000)))) := by
  refine ⟨?_, ?_, by decide⟩
  · show |(Frac.ofInt 1).toRat - (Frac.mk 2001 2000).toRat| ≤ (Frac.mk 1 1000).toRat
    norm_num [Frac.toRat, Frac.ofInt, abs_le]
  · norm_num [Frac.toRat, Frac.ofInt]

/-- Claim C2 (counterexample).  Writing the formula =B into cell (0,0)
records the edge (0,1) → (0,0) on both sides; overwriting (0,0) with the
plain value 5 runs clearDependants, which removes (0,0) from the consumer
list of (0,1) but leaves the source list of (0,0) intact.  After the second
setValueAtPosition the maps are not mutual inverses: (0,1) is still recorded
as a source of (0,0) while (0,0) is no longer a consumer of (0,1). -/
theorem C2_mutual_inverse_cex :
    (c2final.map fun s2 => sourcesOf s2 (0, 0)) = some [(0, 1)] ∧
    (c2final.map fun s2 => consumersOf s2 (0, 1)) = some [] ∧
    (0, 1) ∈ [((0 : Nat), (1 : Nat))] ∧ (0, 0) ∉ ([] : List CellID) := by
  refine ⟨by decide, by decide, by decide, by decide⟩

/-- Claim C3 (counterexample).  A fault raised while compiling the formula
text is not caught: parseExpression sits outside the try/catch, so
calculateValueAtPosition propagates the SyntaxFault to its caller instead of
storing the compute-error sentinel. -/
theorem C3_compile_fault_escapes :
    calculateValueAtPosition engineBad 9 defaultSheet 0 0 "1+" = .thrown "SyntaxFault" := by
  rfl

/-- Claim C4 (code_bug evaluation).  removeRow(4) on a 3-row, 6-column grid
targets a row index outside the valid range (4 is not below the height 3),
so the claim demands an error with the state unchanged.  The code checks the
row index against the width (6), accepts it, decrements the height to 2, and
splices nothing: both stores still hold their 3 rows.  popColumn on a
2-column grid likewise succeeds and leaves the resulting width 1, although
the claim demands failure whenever the result would drop below 2. -/
theorem C4_shrink_guard_run :
    (sheetC4a.height : ℤ) ≤ 4 ∧
    resSheet1 (removeRow sheetC4a 4) =
      some { sheetC4a with
             height := 2
             events := [.consoleLog "Rerender ignored in headless websheet"] } ∧
    ((resSheet1 (popColumn sheetC4b)).map fun s' => s'.width) = some 1 := by
  refine ⟨by decide, by decide, by decide⟩

/-- Claim C5 (counterexample).  From a fully materialised 2-by-2 sheet on
which the dimension invariant holds, addColumn returns normally but only
increments the declared width: the stored rows still have 2 entries while
the width is 3.  From the freshly constructed default sheet (declared 6-by-6
with empty stores), addRow returns normally with declared height 7 and a
single stored row. -/
theorem C5_dims_cex :
    dimsOkB sheetC5 = true ∧
    dimsOkB (addColumn sheetC5 true) = false ∧
    (addRow defaultSheet true).height = 7 ∧
    (addRow defaultSheet true).data.length = 1 := by
  refine ⟨by decide, by decide, by decide, by decide⟩

/-- Claim C6 (counterexample).  In strict mode, making cells (0,1) and (0,0)
reference each other (=A+1 and =B+1) and triggering propagation by the
second edit terminates and produces exactly one cyclic-reference
diagnostic for the whole pass, not one per cycle edge: the two-edge cycle
would require two diagnostics under the claim. -/
theorem C6_single_diagnostic_cex :
    (c6final.map fun s2 => cyclicErrorCount s2.events) = some 1 ∧ (1 : ℕ) ≠ 2 := by
  refine ⟨by decide, by decide⟩

/-- Claim C9 (counterexample).  A string value is passed through formatValue
unchanged (the switch's string case falls through to return the value), so a
text value does not format to the generic value-error marker the claim
assigns to every kind it does not list. -/
theorem C9_string_cex :
    formatValue (0, 0) (.str "hello") = "hello" ∧
    formatValue (0, 0) (.str "hello") ≠ "#VALUE!" := by
  refine ⟨rfl, by decide⟩

/-- Claim C9 (amended).  formatValue is a pure function of the value's kind
agreeing with the spec's table once the omitted string case is added: text
formats to itself; infinities format to the division-by-zero marker, NaN to
the value-error marker, other numbers to canonical numeric text, booleans to
TRUE/FALSE, temporals to locale text, compute errors to their message. -/
theorem C9_format_matches_spec :
    ∀ (id : CellID) (v : Value), formatValue id v = formatSpec v := by
  intro id v
  cases v with
  | num n => cases n <;> rfl
  | str t => rfl
  | bool b => cases b <;> rfl
  | date r => rfl
  | err r m => rfl

/-- Claim C10.  getCalculatedValueAtPos returns 0 exactly when neither store
has a value present at the position, and otherwise applies the
parseNumMaybe coercion to the calculated value when present, else to the raw
value; and parseNumMaybe maps true to 1, false to 0, a value whose text
parses as a number to that number, and any other value to itself — the two
spec-side definitions getCalcSpec and parseNumMaybeSpec transcribe exactly
those words. -/
theorem C10_getCalculated_spec :
    (∀ (s : Sheet) (row col : Nat),
        getCalculatedValueAtPos s row col =
          getCalcSpec (getCell s.calculated row col) (getCell s.data row col)) ∧
    ∀ v, parseNumMaybe v = parseNumMaybeSpec v := by
  constructor
  · intro s row col
    unfold getCalculatedValueAtPos getCalcSpec
    cases getCell s.calculated row col with
    | some v => simp [parseNumMaybe_eq_spec]
    | none => cases getCell s.data row col <;> simp [parseNumMaybe_eq_spec]
  · exact parseNumMaybe_eq_spec

/-- With no semaphore, the guard is a no-op that lets evaluation proceed. -/
theorem guardStep_none (s : Sheet) (cellID : CellID)
    (hsem : s.calculationSemaphore = none) : guardStep s cellID = (s, true) := by
  unfold guardStep; rw [hsem]

/-- A top-level updateDependencies that returns normally leaves all three
pass-scoped fields cleared. -/
theorem updateDependencies_clears (E : Engine) (fuel : Nat) (s : Sheet)
    (cellID : CellID) (s' : Sheet)
    (hsem : s.calculationSemaphore = none)
    (hgr : s.calculationSourceGraph = none)
    (hq : s.depUpdateQueue = none)
    (h : updateDependencies E fuel s cellID = .ok s') : passInactive s' := by
  unfold updateDependencies at h
  split at h
  · cases h
    exact ⟨hsem, hgr, hq⟩
  · split at h
    · rename_i heq
      rw [hq] at heq
      cases heq
    · split at h
      · dsimp only at h
        split at h
        · cases h
          exact ⟨rfl, rfl, rfl⟩
        · cases h
        · cases h
      · dsimp only at h
        split at h
        · cases h
          exact ⟨rfl, rfl, rfl⟩
        · cases h
        · cases h

/-- The state component returned by bindDeps keeps every field except the
dependencies map. -/
theorem bindDeps_fst_fields (s : Sheet) (cellID : CellID) (found : List CellID) :
    (bindDeps s cellID found).1.calculationSemaphore = s.calculationSemaphore ∧
    (bindDeps s cellID found).1.calculationSourceGraph = s.calculationSourceGraph ∧
    (bindDeps s cellID found).1.depUpdateQueue = s.depUpdateQueue := by
  obtain ⟨dd, l, hb⟩ := bindDepsAux_shape cellID found s []
  have hb2 : bindDeps s cellID found = ({ s with dependencies := dd }, l) := hb
  rw [hb2]
  exact ⟨rfl, rfl, rfl⟩

/-- calculateValueAtPosition started outside a pass, with an
updateDependencies behaviour that clears pass state, leaves all three
pass-scoped fields cleared when it returns normally. -/
theorem calcWith_pass_inactive (E : Engine) (upd : Sheet → CellID → Res Sheet)
    (hupd : ∀ (s₀ : Sheet) (id : CellID) (s₁ : Sheet),
        s₀.calculationSemaphore = none → s₀.calculationSourceGraph = none →
        s₀.depUpdateQueue = none → upd s₀ id = .ok s₁ → passInactive s₁)
    (s : Sheet) (row col : Nat) (expr : String) (s' : Sheet) (out : Option String)
    (hsem : s.calculationSemaphore = none)
    (hgr : s.calculationSourceGraph = none)
    (hq : s.depUpdateQueue = none)
    (h : calcWith E upd s row col expr = .ok (s', out)) : passInactive s' := by
  have hg := guardStep_none s (getCellID row col) hsem
  unfold calcWith at h
  split at h
  · cases h
    exact ⟨hsem, hgr, hq⟩
  · dsimp only at h
    rw [hg] at h
    dsimp only at h
    cases hp : E.parse expr with
    | error m => rw [hp] at h; dsimp only at h; cases h
    | ok p =>
      rw [hp] at h
      dsimp only at h
      cases hr : p.run s with
      | ok v =>
        rw [hr] at h
        dsimp only at h
        split at h
        · cases h
          exact ⟨hsem, hgr, hq⟩
        · split at h
          · rename_i sU hU
            cases h
            have hf := bindDeps_fst_fields
              { s with calculated := setCell (ensureRow s.calculated row) row col v }
              (getCellID row col) p.cellDeps
            have := hupd _ (getCellID row col) sU
              (by exact hf.1.trans hsem) (by exact hf.2.1.trans hgr)
              (by exact hf.2.2.trans hq) hU
            exact ⟨this.1, this.2.1, this.2.2⟩
          · cases h
          · cases h
      | error m =>
        rw [hr] at h
        dsimp only at h
        split at h
        · cases h
          exact ⟨hsem, hgr, hq⟩
        · split at h
          · rename_i sU hU
            cases h
            have hf := bindDeps_fst_fields
              { { s with nextRef := s.nextRef + 1 } with
                  calculated := setCell (ensureRow s.calculated row) row col
                    (Value.err s.nextRef "#ERROR!") }
              (getCellID row col) p.cellDeps
            have := hupd _ (getCellID row col) sU
              (by exact hf.1.trans hsem) (by exact hf.2.1.trans hgr)
              (by exact hf.2.2.trans hq) hU
            exact ⟨this.1, this.2.1, this.2.2⟩
          · cases h
          · cases h

/-- clearDependants does not touch the three pass-scoped fields. -/
theorem clearDependants_fields (s : Sheet) (id : CellID) :
    (clearDependants s id).calculationSemaphore = s.calculationSemaphore ∧
    (clearDependants s id).calculationSourceGraph = s.calculationSourceGraph ∧
    (clearDependants s id).depUpdateQueue = s.depUpdateQueue := by
  obtain ⟨dd, h⟩ := clearDependants_shape s id
  rw [h]
  exact ⟨rfl, rfl, rfl⟩

/-- A setValueAtPosition started outside a pass leaves all three pass-scoped
fields cleared when it returns normally. -/
theorem setValueAtPosition_pass_inactive (E : Engine) (fuel : Nat) (s : Sheet)
    (row col : Nat) (v : Value) (force : Bool) (s' : Sheet) (b : Bool)
    (hsem : s.calculationSemaphore = none)
    (hgr : s.calculationSourceGraph = none)
    (hq : s.depUpdateQueue = none)
    (h : setValueAtPosition E fuel s row col v force = .ok (s', b)) :
    passInactive s' := by
  have hupd : ∀ (s₀ : Sheet) (id : CellID) (s₁ : Sheet),
      s₀.calculationSemaphore = none → s₀.calculationSourceGraph = none →
      s₀.depUpdateQueue = none → updateDependencies E fuel s₀ id = .ok s₁ →
      passInactive s₁ :=
    fun s₀ id s₁ a b c hh => updateDependencies_clears E fuel s₀ id s₁ a b c hh
  unfold setValueAtPosition at h
  dsimp only at h
  split at h
  · cases h
    exact ⟨hsem, hgr, hq⟩
  · split at h
    · split at h
      · rename_i heq
        cases h
        exact calcWith_pass_inactive E _ hupd _ row col _ _ _
          (by simp only [clearDependants_fields]; split <;> exact hsem)
          (by simp only [clearDependants_fields]; split <;> exact hgr)
          (by simp only [clearDependants_fields]; split <;> exact hq) heq
      · cases h
      · cases h
    · split at h
      · rename_i heq
        cases h
        exact updateDependencies_clears E fuel _ _ _
          (by simp only [clearDependants_fields]; split <;> exact hsem)
          (by simp only [clearDependants_fields]; split <;> exact hgr)
          (by simp only [clearDependants_fields]; split <;> exact hq) heq
      · cases h
      · cases h

/-- Claim C8.  No PropagationPass state persists between passes: starting
from a state with no pass active, every top-level updateDependencies and
every setValueAtPosition that returns normally leaves the visitation-counter
map, the strict-mode provenance map, and the pending work queue all cleared
(null).  (A call that raises does not return; the exception paths are
outside this claim's wording.) -/
theorem C8_pass_state_cleared (E : Engine) (fuel : Nat) (s : Sheet)
    (h : passInactive s) :
    (∀ (cellID : CellID) (s' : Sheet),
        updateDependencies E fuel s cellID = .ok s' → passInactive s') ∧
    (∀ (row col : Nat) (v : Value) (force : Bool) (s' : Sheet) (b : Bool),
        setValueAtPosition E fuel s row col v force = .ok (s', b) →
        passInactive s') := by
  obtain ⟨h1, h2, h3⟩ := h
  constructor
  · intro cellID s' hh
    exact updateDependencies_clears E fuel s cellID s' h1 h2 h3 hh
  · intro row col v force s' b hh
    exact setValueAtPosition_pass_inactive E fuel s row col v force s' b h1 h2 h3 hh

/-- Witness for the pass-state claim at a concrete instance: the fresh
2-by-2 sheet with the constant-formula engine. -/
theorem C8_pass_state_cleared_witness :
    passInactive (Sheet.make 2 2 true 1000 (Frac.mk 1 1000)) ∧
    ((∀ (cellID : CellID) (s' : Sheet),
        updateDependencies engineC2 9 (Sheet.make 2 2 true 1000 (Frac.mk 1 1000)) cellID
          = .ok s' → passInactive s') ∧
     (∀ (row col : Nat) (v : Value) (force : Bool) (s' : Sheet) (b : Bool),
        setValueAtPosition engineC2 9 (Sheet.make 2 2 true 1000 (Frac.mk 1 1000))
          row col v force = .ok (s', b) → passInactive s')) :=
  ⟨⟨rfl, rfl, rfl⟩,
   C8_pass_state_cleared engineC2 9 (Sheet.make 2 2 true 1000 (Frac.mk 1 1000))
     ⟨rfl, rfl, rfl⟩⟩


/-- Claim C3 (amended).  A fault raised while evaluating the compiled
expression is caught and replaced by a fresh Error sentinel carrying the
generic failure message, which is stored as the cell's calculated value and
returned as the formatted result (shown here for a cell with no active
pass, no prior calculated entry, no same-grid references and no registered
consumers, which isolates the evaluation step); a fault raised while
compiling is NOT treated the same way: whenever the engine's parse fails,
calculateValueAtPosition propagates the fault to its caller. -/
theorem C3_eval_fault_contained (E : Engine) (fuel : Nat) (s : Sheet)
    (row col : Nat) (expr : String) (p : ParsedExpr) (m : String)
    (hexpr : ¬(expr = ""))
    (hsem : s.calculationSemaphore = none)
    (hparse : E.parse expr = .ok p)
    (hrun : p.run s = .error m)
    (hdeps : p.cellDeps = [])
    (horig : getCell s.calculated row col = none)
    (hcons : s.dependencies.lookup (getCellID row col) = none) :
    (∃ s', calculateValueAtPosition E fuel s row col expr = .ok (s', some "#ERROR!") ∧
        getCell s'.calculated row col = some (.err s.nextRef "#ERROR!")) ∧
    (∀ (E' : Engine) (m' : String), E'.parse expr = .error m' →
        calculateValueAtPosition E' fuel s row col expr = .thrown m') := by
  have hg : guardStep s (getCellID row col) = (s, true) := by
    unfold guardStep; rw [hsem]
  constructor
  · have horig' : getCell (ensureRow s.calculated row) row col = none := by
      rw [getCell_ensureRow]; exact horig
    have hwas : wasUpdatedCheck none (Value.err s.nextRef "#ERROR!")
        s.iterationEpsilon = true := rfl
    simp only [calculateValueAtPosition, calcWith, if_neg hexpr, hg, hparse, hrun, hdeps,
               bindDeps, bindDepsAux, horig', hwas, Bool.not_true, Bool.false_eq_true,
               if_false, updateDependencies, hcons, formatValue]
    exact ⟨_, rfl, getCell_setCell_self _ row col _⟩
  · intro E' m' hp
    simp only [calculateValueAtPosition, calcWith, if_neg hexpr, hg, hp]

/-- Witness for the amended C3 theorem: the always-throwing engine on the
fresh default sheet stores the sentinel, and every failing compile
propagates. -/
theorem C3_eval_fault_contained_witness :
    (∃ s', calculateValueAtPosition engineThrows 9 defaultSheet 0 0 "X" =
        .ok (s', some "#ERROR!") ∧
        getCell s'.calculated 0 0 = some (.err 0 "#ERROR!")) ∧
    (∀ (E' : Engine) (m' : String), E'.parse "X" = .error m' →
        calculateValueAtPosition E' 9 defaultSheet 0 0 "X" = .thrown m') :=
  C3_eval_fault_contained engineThrows 9 defaultSheet 0 0 "X"
    { run := fun _ => .error "EvaluationFault", cellDeps := [] } "EvaluationFault"
    (by decide) rfl rfl rfl rfl rfl rfl

/-- One removal step: the walked source loses the cell, every other key
keeps its list, duplicate-freeness survives, and absence is monotone. -/
theorem removeConsumerStep_facts (id : CellID) (s : Sheet) (d : CellID)
    (hnd : ∀ p ∈ s.dependencies, p.2.Nodup) :
    id ∉ consumersOf (removeConsumerStep id s d) d ∧
    (∀ d', ¬(d = d') → consumersOf (removeConsumerStep id s d) d' = consumersOf s d') ∧
    (∀ p ∈ (removeConsumerStep id s d).dependencies, p.2.Nodup) ∧
    (∀ d', id ∉ consumersOf s d' → id ∉ consumersOf (removeConsumerStep id s d) d') := by
  unfold removeConsumerStep
  cases hl : s.dependencies.lookup d with
  | none =>
    refine ⟨?_, fun d' _ => rfl, hnd, fun d' h => h⟩
    show id ∉ consumersOf s d
    unfold consumersOf
    rw [hl]
    exact List.not_mem_nil id
  | some rm =>
    have hrmnd : rm.Nodup := hnd (d, rm) (lookup_mem d rm s.dependencies hl)
    refine ⟨?_, ?_, ?_, ?_⟩
    · show id ∉ ((setKey d (removeFirst rm id) s.dependencies).lookup d).getD []
      rw [lookup_setKey_self]
      exact not_mem_removeFirst id rm hrmnd
    · intro d' hne
      show ((setKey d (removeFirst rm id) s.dependencies).lookup d').getD [] =
        consumersOf s d'
      rw [lookup_setKey_ne d d' _ hne]
      rfl
    · intro p hp
      rcases mem_setKey d (removeFirst rm id) s.dependencies p hp with h1 | h2
      · rw [h1]
        exact List.Sublist.nodup (removeFirst_sublist id rm) hrmnd
      · exact hnd p h2
    · intro d' hni
      by_cases hd : d = d'
      · subst hd
        show id ∉ ((setKey d (removeFirst rm id) s.dependencies).lookup d).getD []
        rw [lookup_setKey_self]
        intro hmem
        exact hni (by
          unfold consumersOf
          rw [hl]
          exact (removeFirst_sublist id rm).subset hmem)
      · show id ∉ ((setKey d (removeFirst rm id) s.dependencies).lookup d').getD []
        rw [lookup_setKey_ne d d' _ hd]
        exact hni

/-- The whole clearDependants fold: every walked source loses the cell,
untouched keys keep their consumer lists, duplicate-freeness survives, and
absence of the cell is monotone. -/
theorem foldl_removeConsumer_removes (id : CellID) :
    ∀ (deps : List CellID) (s : Sheet),
      (∀ p ∈ s.dependencies, p.2.Nodup) →
      (∀ d ∈ deps, id ∉ consumersOf (deps.foldl (removeConsumerStep id) s) d) ∧
      (∀ d, d ∉ deps →
        consumersOf (deps.foldl (removeConsumerStep id) s) d = consumersOf s d) ∧
      (∀ p ∈ (deps.foldl (removeConsumerStep id) s).dependencies, p.2.Nodup) ∧
      (∀ d, id ∉ consumersOf s d →
        id ∉ consumersOf (deps.foldl (removeConsumerStep id) s) d) := by
  intro deps
  induction deps with
  | nil =>
    intro s hnd
    exact ⟨fun d hd => absurd hd (List.not_mem_nil d), fun d _ => rfl, hnd,
           fun d h => h⟩
  | cons d rest ih =>
    intro s hnd
    obtain ⟨st1, st2, st3, st4⟩ := removeConsumerStep_facts id s d hnd
    obtain ⟨ih1, ih2, ih3, ih4⟩ := ih (removeConsumerStep id s d) st3
    rw [List.foldl_cons]
    refine ⟨?_, ?_, ih3, ?_⟩
    · intro d' hd'
      by_cases hmem : d' ∈ rest
      · exact ih1 d' hmem
      · have : d' = d := by
          rcases List.mem_cons.mp hd' with h1 | h2
          · exact h1
          · exact absurd h2 hmem
        subst this
        exact ih4 d' st1
    · intro d' hd'
      have hdd : ¬(d = d') := fun hh =>
        hd' (hh ▸ List.mem_cons_self d rest)
      have hrest : d' ∉ rest := fun hh => hd' (List.mem_cons_of_mem d hh)
      rw [ih2 d' hrest, st2 d' hdd]
    · intro d' hni
      exact ih4 d' (st4 d' hni)

/-- Claim C2 (amended).  clearDependants removes the cell from every
recorded source's consumer list (completely, under duplicate-free consumer
lists), leaves the consumer list of every unrecorded key unchanged, and
leaves the entire dependants map — in particular the cell's own recorded
source set — untouched; the mutual-inverse biconditional of the original
claim can therefore fail after setValueAtPosition, as the counterexample
shows. -/
theorem C2_clearDependants_spec (s : Sheet) (id : CellID)
    (hnd : ∀ p ∈ s.dependencies, p.2.Nodup) :
    (clearDependants s id).dependants = s.dependants ∧
    (∀ d ∈ sourcesOf s id, id ∉ consumersOf (clearDependants s id) d) ∧
    (∀ d, d ∉ sourcesOf s id →
      consumersOf (clearDependants s id) d = consumersOf s d) := by
  refine ⟨?_, ?_, ?_⟩
  · obtain ⟨dd, h⟩ := clearDependants_shape s id
    rw [h]
  · unfold clearDependants sourcesOf
    cases hl : s.dependants.lookup id with
    | none =>
      intro d hd
      cases hd
    | some deps =>
      exact (foldl_removeConsumer_removes id deps s hnd).1
  · unfold clearDependants sourcesOf
    cases hl : s.dependants.lookup id with
    | none => intro d _; rfl
    | some deps =>
      exact fun d hd => (foldl_removeConsumer_removes id deps s hnd).2.1 d hd

/-- Witness for the amended clearDependants theorem at the concrete
one-edge state. -/
theorem C2_clearDependants_spec_witness :
    (∀ p ∈ c2wState.dependencies, p.2.Nodup) ∧
    ((clearDependants c2wState (0, 0)).dependants = c2wState.dependants ∧
     (∀ d ∈ sourcesOf c2wState (0, 0),
        (0, 0) ∉ consumersOf (clearDependants c2wState (0, 0)) d) ∧
     (∀ d, d ∉ sourcesOf c2wState (0, 0) →
        consumersOf (clearDependants c2wState (0, 0)) d = consumersOf c2wState d)) :=
  ⟨by decide, C2_clearDependants_spec c2wState (0, 0) (by decide)⟩

/-- jsSpliceInsert grows the length by one, whatever the index. -/
theorem jsSpliceInsert_length {α : Type} (l : List α) (idx : Nat) (v : α) :
    (jsSpliceInsert l idx v).length = l.length + 1 := by
  simp [jsSpliceInsert]
  omega

/-- jsSpliceRemove at an in-range index shrinks the length by one. -/
theorem jsSpliceRemove_length {α : Type} (l : List α) (idx : Nat)
    (h : idx < l.length) : (jsSpliceRemove l idx).length = l.length - 1 := by
  simp [jsSpliceRemove]
  omega

/-- A member of a splice-insert is the new entry or an old member. -/
theorem mem_jsSpliceInsert {α : Type} (x : α) (l : List α) (idx : Nat) (v : α)
    (h : x ∈ jsSpliceInsert l idx v) : x = v ∨ x ∈ l := by
  unfold jsSpliceInsert at h
  rcases List.mem_append.mp h with h1 | h2
  · rcases List.mem_append.mp h1 with h3 | h4
    · exact Or.inr (List.take_subset idx l h3)
    · exact Or.inl (List.mem_singleton.mp h4)
  · exact Or.inr (List.drop_subset idx l h2)

/-- A member of a splice-remove is a member of the original. -/
theorem mem_jsSpliceRemove {α : Type} (x : α) (l : List α) (idx : Nat)
    (h : x ∈ jsSpliceRemove l idx) : x ∈ l := by
  unfold jsSpliceRemove at h
  rcases List.mem_append.mp h with h1 | h2
  · exact List.take_subset idx l h1
  · exact List.drop_subset (idx + 1) l h2

/-- jsSet right at the seam of an append replaces the head of the tail. -/
theorem jsSet_append_cons {α : Type} :
    ∀ (A : List (Option α)) (x v : Option α) (B : List (Option α)),
      jsSet (A ++ x :: B) A.length v = A ++ v :: B := by
  intro A
  induction A with
  | nil => intro x v B; rfl
  | cons a rest ih =>
    intro x v B
    show a :: jsSet (rest ++ x :: B) rest.length v = a :: (rest ++ v :: B)
    rw [ih]

/-- Writing back the entry already stored at an index is a no-op. -/
theorem jsSet_of_get {α : Type} :
    ∀ (g : List (Option α)) (i : Nat) (x : Option α), g[i]? = some x →
      jsSet g i x = g := by
  intro g
  induction g with
  | nil => intro i x h; cases h
  | cons a rest ih =>
    intro i x h
    cases i with
    | zero =>
      have : a = x := by
        have := h
        simp at this
        exact this
      rw [this]
      rfl
    | succ n =>
      show a :: jsSet rest n x = a :: rest
      rw [ih n x (by simpa using h)]

/-- A fold over the first n row indices that rewrites each present row with T
and skips missing rows is a map over the first n entries. -/
theorem foldRows_eq_map (T : Row → Row) :
    ∀ (n : Nat) (g : Grid), n ≤ g.length →
      (List.range n).foldl
        (fun g i => match getRow g i with
          | some r => jsSet g i (some (T r))
          | none => g) g
      = (g.take n).map (Option.map T) ++ g.drop n := by
  intro n
  induction n with
  | zero => intro g _; simp
  | succ n ih =>
    intro g hn
    have hn' : n < g.length := hn
    rw [List.range_succ, List.foldl_append, ih g (Nat.le_of_lt hn'),
        List.foldl_cons, List.foldl_nil]
    have hA : ((g.take n).map (Option.map T)).length = n := by
      rw [List.length_map, List.length_take]
      omega
    have hdrop : g.drop n = g[n] :: g.drop (n + 1) := List.drop_eq_getElem_cons hn'
    have hget : ((g.take n).map (Option.map T) ++ g.drop n).get? n = some g[n] := by
      rw [List.get?_eq_getElem?, List.getElem?_append_right (le_of_eq hA), hA,
          Nat.sub_self, hdrop]
      simp
    have htake : g.take (n + 1) = g.take n ++ [g[n]] := by
      rw [List.take_succ, List.getElem?_eq_getElem hn']
      rfl
    cases hx : g[n] with
    | none =>
      have : getRow ((g.take n).map (Option.map T) ++ g.drop n) n = none := by
        unfold getRow jsGet
        rw [hget, hx]
        rfl
      rw [this]
      dsimp only
      rw [htake, hdrop, hx]
      simp
    | some r =>
      have : getRow ((g.take n).map (Option.map T) ++ g.drop n) n = some r := by
        unfold getRow jsGet
        rw [hget, hx]
        rfl
      rw [this]
      dsimp only
      rw [hdrop, hx]
      have hset := jsSet_append_cons ((g.take n).map (Option.map T))
        (some r) (some (T r)) (g.drop (n + 1))
      rw [hA] at hset
      rw [hset, htake, hx]
      simp

/-- spliceRowsInsert over the whole grid is a per-row map. -/
theorem spliceRowsInsert_eq_map (g : Grid) (idx : Nat) :
    spliceRowsInsert g g.length idx =
      g.map (Option.map (fun r => jsSpliceInsert r idx (none : Cell))) := by
  have h := foldRows_eq_map (fun r => jsSpliceInsert r idx none) g.length g le_rfl
  simpa [spliceRowsInsert, List.take_length, List.drop_length] using h

/-- spliceRowsRemove over the whole grid is a per-row map. -/
theorem spliceRowsRemove_eq_map (g : Grid) (idx : Nat) :
    spliceRowsRemove g g.length idx =
      g.map (Option.map (fun r => jsSpliceRemove r idx)) := by
  have h := foldRows_eq_map (fun r => jsSpliceRemove r idx) g.length g le_rfl
  simpa [spliceRowsRemove, List.take_length, List.drop_length] using h

/-- popRowsCells over the whole grid is a per-row map. -/
theorem popRowsCells_eq_map (g : Grid) (w : Nat) :
    popRowsCells g g.length w =
      g.map (Option.map (fun r => if w < r.length then r.dropLast else r)) := by
  have hstep : (fun (g : Grid) (i : Nat) => match getRow g i with
      | some r => if w < r.length then jsSet g i (some r.dropLast) else g
      | none => g)
    = (fun (g : Grid) (i : Nat) => match getRow g i with
      | some r => jsSet g i (some (if w < r.length then r.dropLast else r))
      | none => g) := by
    funext g i
    cases hr : getRow g i with
    | none => rfl
    | some r =>
      dsimp only
      by_cases hw : w < r.length
      · rw [if_pos hw, if_pos hw]
      · rw [if_neg hw, if_neg hw]
        have hg : g[i]? = some (some r) := by
          unfold getRow jsGet at hr
          rw [List.get?_eq_getElem?] at hr
          exact Option.join_eq_some.mp hr
        exact (jsSet_of_get g i (some r) hg).symm
  have h := foldRows_eq_map (fun r => if w < r.length then r.dropLast else r)
    g.length g le_rfl
  unfold popRowsCells
  rw [hstep]
  simpa [List.take_length, List.drop_length] using h

/-- The Boolean dims check unfolded to its four propositional facts. -/
theorem dimsOkB_iff (s : Sheet) :
    dimsOkB s = true ↔
      (s.data.length = s.height ∧ s.calculated.length = s.height ∧
       (∀ r ∈ s.data, ∃ l, r = some l ∧ l.length = s.width) ∧
       (∀ r ∈ s.calculated, ∃ l, r = some l ∧ l.length = s.width)) := by
  simp only [dimsOkB, Bool.and_eq_true, List.all_eq_true, beq_iff_eq]
  constructor
  · rintro ⟨⟨⟨h1, h2⟩, h3⟩, h4⟩
    refine ⟨h1, h2, ?_, ?_⟩
    · intro r hr
      have hb := h3 r hr
      cases r with
      | some l => exact ⟨l, rfl, by simpa using hb⟩
      | none => simp at hb
    · intro r hr
      have hb := h4 r hr
      cases r with
      | some l => exact ⟨l, rfl, by simpa using hb⟩
      | none => simp at hb
  · rintro ⟨h1, h2, h3, h4⟩
    refine ⟨⟨⟨h1, h2⟩, ?_⟩, ?_⟩
    · intro r hr
      obtain ⟨l, rfl, hl⟩ := h3 r hr
      simpa using hl
    · intro r hr
      obtain ⟨l, rfl, hl⟩ := h4 r hr
      simpa using hl

/-- All rows of a mapped grid satisfy the length bound w' when the original
rows satisfy w and T carries w to w'. -/
theorem grid_map_rows {w w' : Nat} (T : Row → Row)
    (hT : ∀ l : Row, l.length = w → (T l).length = w') (g : Grid)
    (hg : ∀ r ∈ g, ∃ l, r = some l ∧ l.length = w) :
    ∀ r ∈ g.map (Option.map T), ∃ l, r = some l ∧ l.length = w' := by
  intro r hr
  rcases List.mem_map.mp hr with ⟨r0, hr0, rfl⟩
  obtain ⟨l, rfl, hl⟩ := hg r0 hr0
  exact ⟨T l, rfl, hT l hl⟩

/-- Claim C5 (amended).  The dims invariant — declared height and width
equal the row count and the per-row entry count of both stores — is
preserved (not established) by the shape operations: addRow,
insertRowBefore and insertColumnBefore keep it outright, and popRow,
popColumn, removeColumn and removeRow keep it on every normal return,
removeRow additionally requiring an index below the height (the buggy
width-based range check alone does not ensure the spliced row exists); the
counterexample shows addColumn and the constructor break it. -/
theorem C5_dims_preserved (s : Sheet) (idx : Nat) (i j : ℤ)
    (h : dimsOkB s = true) :
    dimsOkB (addRow s) = true ∧
    dimsOkB (insertRowBefore s idx) = true ∧
    dimsOkB (insertColumnBefore s idx) = true ∧
    (∀ s', popRow s = .ok s' → dimsOkB s' = true) ∧
    (∀ s', popColumn s = .ok s' → dimsOkB s' = true) ∧
    (∀ s', removeColumn s i = .ok s' → dimsOkB s' = true) ∧
    (∀ s', removeRow s j = .ok s' → j < (s.height : ℤ) → dimsOkB s' = true) := by
  obtain ⟨hd, hc, hdw, hcw⟩ := (dimsOkB_iff s).mp h
  refine ⟨?_, ?_, ?_, ?_, ?_, ?_, ?_⟩
  · unfold addRow forceRerender
    rw [if_pos rfl, dimsOkB_iff]
    dsimp only
    refine ⟨?_, ?_, ?_, ?_⟩
    · rw [List.length_append, hd]
      rfl
    · rw [List.length_append, hc]
      rfl
    · intro r hr
      rcases List.mem_append.mp hr with h1 | h2
      · exact hdw r h1
      · exact ⟨List.replicate s.width none, List.mem_singleton.mp h2,
               List.length_replicate _ _⟩
    · intro r hr
      rcases List.mem_append.mp hr with h1 | h2
      · exact hcw r h1
      · exact ⟨List.replicate s.width none, List.mem_singleton.mp h2,
               List.length_replicate _ _⟩
  · unfold insertRowBefore forceRerender
    rw [dimsOkB_iff]
    dsimp only
    refine ⟨?_, ?_, ?_, ?_⟩
    · rw [jsSpliceInsert_length, hd]
    · rw [jsSpliceInsert_length, hc]
    · intro r hr
      rcases mem_jsSpliceInsert r s.data idx _ hr with h1 | h2
      · exact ⟨List.replicate s.width none, h1, List.length_replicate _ _⟩
      · exact hdw r h2
    · intro r hr
      rcases mem_jsSpliceInsert r s.calculated idx _ hr with h1 | h2
      · exact ⟨List.replicate s.width none, h1, List.length_replicate _ _⟩
      · exact hcw r h2
  · unfold insertColumnBefore forceRerender
    rw [dimsOkB_iff]
    dsimp only
    have hmd : spliceRowsInsert s.data s.height idx =
        s.data.map (Option.map (fun r => jsSpliceInsert r idx (none : Cell))) := by
      rw [← hd]
      exact spliceRowsInsert_eq_map s.data idx
    have hmc : spliceRowsInsert s.calculated s.height idx =
        s.calculated.map (Option.map (fun r => jsSpliceInsert r idx (none : Cell))) := by
      rw [← hc]
      exact spliceRowsInsert_eq_map s.calculated idx
    have hT : ∀ l : Row, l.length = s.width →
        (jsSpliceInsert l idx (none : Cell)).length = s.width + 1 := by
      intro l hl
      rw [jsSpliceInsert_length, hl]
    refine ⟨?_, ?_, ?_, ?_⟩
    · rw [hmd, List.length_map, hd]
    · rw [hmc, List.length_map, hc]
    · rw [hmd]
      exact grid_map_rows _ hT s.data hdw
    · rw [hmc]
      exact grid_map_rows _ hT s.calculated hcw
  · intro s' hok
    unfold popRow at hok
    split at hok
    · exact Res.noConfusion hok
    · injection hok with hs'
      subst hs'
      unfold forceRerender
      rw [dimsOkB_iff]
      dsimp only
      refine ⟨?_, ?_, ?_, ?_⟩
      · rw [List.length_dropLast, hd]
      · rw [List.length_dropLast, hc]
      · exact fun r hr => hdw r ((List.dropLast_sublist s.data).subset hr)
      · exact fun r hr => hcw r ((List.dropLast_sublist s.calculated).subset hr)
  · intro s' hok
    unfold popColumn at hok
    dsimp only at hok
    split at hok
    · exact Res.noConfusion hok
    · injection hok with hs'
      subst hs'
      rename ¬s.width < 2 => hw
      unfold forceRerender
      rw [dimsOkB_iff]
      dsimp only
      have hmd : popRowsCells s.data s.height (s.width - 1) =
          s.data.map (Option.map
            (fun r => if s.width - 1 < r.length then r.dropLast else r)) := by
        rw [← hd]
        exact popRowsCells_eq_map s.data (s.width - 1)
      have hmc : popRowsCells s.calculated s.height (s.width - 1) =
          s.calculated.map (Option.map
            (fun r => if s.width - 1 < r.length then r.dropLast else r)) := by
        rw [← hc]
        exact popRowsCells_eq_map s.calculated (s.width - 1)
      have hT : ∀ l : Row, l.length = s.width →
          (if s.width - 1 < l.length then l.dropLast else l).length = s.width - 1 := by
        intro l hl
        rw [if_pos (by rw [hl]; omega), List.length_dropLast, hl]
      refine ⟨?_, ?_, ?_, ?_⟩
      · rw [hmd, List.length_map, hd]
      · rw [hmc, List.length_map, hc]
      · rw [hmd]
        exact grid_map_rows _ hT s.data hdw
      · rw [hmc]
        exact grid_map_rows _ hT s.calculated hcw
  · intro s' hok
    unfold removeColumn at hok
    dsimp only at hok
    split at hok
    · exact Res.noConfusion hok
    · split at hok
      · exact Res.noConfusion hok
      · injection hok with hs'
        subst hs'
        rename ¬(i < 0 ∨ (s.width : ℤ) ≤ i) => hri
        unfold forceRerender
        rw [dimsOkB_iff]
        dsimp only
        have hmd : spliceRowsRemove s.data s.height i.toNat =
            s.data.map (Option.map (fun r => jsSpliceRemove r i.toNat)) := by
          rw [← hd]
          exact spliceRowsRemove_eq_map s.data i.toNat
        have hmc : spliceRowsRemove s.calculated s.height i.toNat =
            s.calculated.map (Option.map (fun r => jsSpliceRemove r i.toNat)) := by
          rw [← hc]
          exact spliceRowsRemove_eq_map s.calculated i.toNat
        have hT : ∀ l : Row, l.length = s.width →
            (jsSpliceRemove l i.toNat).length = s.width - 1 := by
          intro l hl
          rw [jsSpliceRemove_length l i.toNat (by rw [hl]; omega), hl]
        refine ⟨?_, ?_, ?_, ?_⟩
        · rw [hmd, List.length_map, hd]
        · rw [hmc, List.length_map, hc]
        · rw [hmd]
          exact grid_map_rows _ hT s.data hdw
        · rw [hmc]
          exact grid_map_rows _ hT s.calculated hcw
  · intro s' hok hj
    unfold removeRow at hok
    split at hok
    · exact Res.noConfusion hok
    · split at hok
      · exact Res.noConfusion hok
      · injection hok with hs'
        subst hs'
        rename ¬(j < 0 ∨ (s.width : ℤ) ≤ j) => hrj
        unfold forceRerender
        rw [dimsOkB_iff]
        dsimp only
        refine ⟨?_, ?_, ?_, ?_⟩
        · rw [jsSpliceRemove_length s.data j.toNat (by rw [hd]; omega), hd]
        · rw [jsSpliceRemove_length s.calculated j.toNat (by rw [hc]; omega), hc]
        · exact fun r hr => hdw r (mem_jsSpliceRemove r s.data j.toNat hr)
        · exact fun r hr => hcw r (mem_jsSpliceRemove r s.calculated j.toNat hr)

/-- Witness for the amended dims theorem at the fully materialised 2-by-2
sheet. -/
theorem C5_dims_preserved_witness :
    dimsOkB sheetC5 = true ∧
    (dimsOkB (addRow sheetC5) = true ∧
     dimsOkB (insertRowBefore sheetC5 0) = true ∧
     dimsOkB (insertColumnBefore sheetC5 0) = true ∧
     (∀ s', popRow sheetC5 = .ok s' → dimsOkB s' = true) ∧
     (∀ s', popColumn sheetC5 = .ok s' → dimsOkB s' = true) ∧
     (∀ s', removeColumn sheetC5 0 = .ok s' → dimsOkB s' = true) ∧
     (∀ s', removeRow sheetC5 0 = .ok s' →
        (0 : ℤ) < (sheetC5.height : ℤ) → dimsOkB s' = true)) :=
  ⟨by decide, C5_dims_preserved sheetC5 0 0 0 (by decide)⟩

/-- Claim C6 (amended).  With iteration disabled, the two-cell mutual
reference produces, in the pass triggered by the second edit, exactly ONE
cyclic-reference diagnostic in total — not one per cycle edge — and the
pass terminates normally; in general, whenever the strict-mode provenance
graph already records the traversed source-to-consumer edge, enqueueDep
only emits the diagnostic and returns, so the consumer is never re-enqueued
via that edge. -/
theorem C6_strict_cycle_behaviour :
    ((c6final.map fun s2 => cyclicErrorCount s2.events) = some 1 ∧
     c6final.isSome = true) ∧
    (∀ (s : Sheet) (graph : List (CellID × List CellID)) (cellID dep : CellID)
        (srcs : List CellID),
      s.iterate = false →
      s.calculationSourceGraph = some graph →
      graph.lookup dep = some srcs →
      srcs.contains cellID = true →
      enqueueDep cellID s dep =
        { s with events := s.events ++
            [.consoleError ("Cyclic reference banned at " ++ showCellID cellID ++
              " -> " ++ showCellID dep)] }) := by
  refine ⟨⟨by decide, by decide⟩, ?_⟩
  intro s graph cellID dep srcs hit hg hl hc
  unfold enqueueDep
  dsimp only
  rw [hg]
  dsimp only
  rw [hl]
  dsimp only
  rw [hit, hc]
  rfl

/-- Witness for the cyclic-skip half of the amended strict-mode theorem at
a concrete mid-pass state. -/
theorem C6_strict_cycle_behaviour_witness :
    c6wState.iterate = false ∧
    enqueueDep (0, 0) c6wState (0, 1) =
      { c6wState with events := c6wState.events ++
          [.consoleError ("Cyclic reference banned at " ++ showCellID (0, 0) ++
            " -> " ++ showCellID (0, 1))] } :=
  ⟨by decide,
   C6_strict_cycle_behaviour.2 c6wState [((0, 1), [(0, 0)])] (0, 0) (0, 1)
     [(0, 0)] (by decide) rfl (by decide) (by decide)⟩

/-- A mapped sum strictly decreases when one occurring argument strictly
decreases and no argument increases. -/
theorem sum_map_lt {α : Type} (f g : α → Nat) :
    ∀ (U : List α) (c : α), c ∈ U → (∀ u, g u ≤ f u) → g c < f c →
      (U.map g).sum < (U.map f).sum := by
  intro U
  induction U with
  | nil => intro c hc; cases hc
  | cons a rest ih =>
    intro c hc hle hlt
    rw [List.map_cons, List.map_cons, List.sum_cons, List.sum_cons]
    cases hc with
    | head =>
      exact Nat.add_lt_add_of_lt_of_le hlt
        (List.sum_le_sum fun u _ => hle u)
    | tail _ hmem =>
      exact Nat.add_lt_add_of_le_of_lt (hle a) (ih c hmem hle hlt)

/-- A duplicate-free list contained in another list is no longer than it. -/
theorem nodup_subset_length {α : Type} [DecidableEq α] (l l' : List α)
    (hn : l.Nodup) (hs : l ⊆ l') : l.length ≤ l'.length := by
  calc l.length = l.toFinset.card := (List.toFinset_card_of_nodup hn).symm
    _ ≤ l'.toFinset.card := Finset.card_le_card fun x hx =>
        List.mem_toFinset.mpr (hs (List.mem_toFinset.mp hx))
    _ ≤ l'.length := List.toFinset_card_le l'

/-- The visitation budget never exceeds its initial bound. -/
theorem semMeasure_le (maxIt : Nat) (U : List CellID) (m : List (CellID × Nat)) :
    semMeasure maxIt U m ≤ (maxIt + 2) * U.length := by
  unfold semMeasure
  induction U with
  | nil => exact Nat.le_refl 0
  | cons a rest ih =>
    rw [List.map_cons, List.sum_cons, List.length_cons, Nat.mul_succ]
    calc (maxIt + 2 - (m.lookup a).getD 0) +
          (rest.map fun c => maxIt + 2 - (m.lookup c).getD 0).sum
        ≤ (maxIt + 2) + (maxIt + 2) * rest.length :=
          Nat.add_le_add (Nat.sub_le _ _) ih
      _ = (maxIt + 2) * rest.length + (maxIt + 2) := Nat.add_comm _ _

/-- Bumping one universe cell's visitation counter strictly spends
budget. -/
theorem semMeasure_setKey_lt (maxIt : Nat) (U : List CellID)
    (m : List (CellID × Nat)) (c : CellID) (k : Nat)
    (hc : c ∈ U) (hk : (m.lookup c).getD 0 = k) (hkle : k ≤ maxIt + 1) :
    semMeasure maxIt U (setKey c (k + 1) m) < semMeasure maxIt U m := by
  unfold semMeasure
  refine sum_map_lt _ _ U c hc ?_ ?_
  · intro u
    by_cases hu : c = u
    · subst hu
      rw [lookup_setKey_self, hk]
      exact Nat.sub_le_sub_left (Nat.le_succ k) _
    · rw [lookup_setKey_ne c u _ hu]
  · rw [lookup_setKey_self, hk]
    simp only [Option.getD_some]
    omega

/-- Every recorded consumer list is contained in the consumer universe. -/
theorem lookup_subset_universe (s : Sheet) (c : CellID) (v : List CellID)
    (h : s.dependencies.lookup c = some v) : v ⊆ consumerUniverse s := by
  intro x hx
  unfold consumerUniverse
  rw [List.mem_join]
  exact ⟨v, List.mem_map.mpr ⟨(c, v), lookup_mem c v s.dependencies h, rfl⟩, hx⟩

/-- The two outcomes of the cycle guard when a semaphore map is present:
over the cap the call aborts with a diagnostic and an otherwise-unchanged
state; at or under the cap the counter is bumped by one. -/
theorem guardStep_cases (s : Sheet) (c : CellID) (m : List (CellID × Nat))
    (hsem : s.calculationSemaphore = some m) :
    (∃ n, m.lookup c = some n ∧ s.maxIterations < n ∧
      guardStep s c = ({ s with events := s.events ++
        [.consoleWarn "Circular reference hit max iteration limit"] }, false)) ∨
    (∃ k, k ≤ s.maxIterations ∧ (m.lookup c).getD 0 = k ∧
      guardStep s c =
        ({ s with calculationSemaphore := some (setKey c (k + 1) m) }, true)) := by
  unfold guardStep
  rw [hsem]
  dsimp only
  cases hl : m.lookup c with
  | none => exact Or.inr ⟨0, Nat.zero_le _, rfl, rfl⟩
  | some n =>
    by_cases hn : s.maxIterations < n
    · exact Or.inl ⟨n, rfl, hn, by dsimp only; rw [if_pos hn]⟩
    · refine Or.inr ⟨n, Nat.le_of_not_lt hn, rfl, ?_⟩
      dsimp only
      rw [if_neg hn]

/-- Edge binding keeps every consumer list duplicate-free and inside the
universe when the bound cell itself lies in the universe. -/
theorem bindDepsAux_inv (U : List CellID) (cellID : CellID) (hc : cellID ∈ U) :
    ∀ (found : List CellID) (s : Sheet) (acc : List CellID),
      (∀ p ∈ s.dependencies, p.2.Nodup ∧ p.2 ⊆ U) →
      (∀ p ∈ (bindDepsAux cellID s acc found).1.dependencies, p.2.Nodup ∧ p.2 ⊆ U) := by
  intro found
  induction found with
  | nil => intro s acc h; exact h
  | cons d rest ih =>
    intro s acc h
    unfold bindDepsAux
    by_cases hacc : acc.contains d = true
    · rw [if_pos hacc]
      exact ih s acc h
    · rw [if_neg hacc]
      cases hl : s.dependencies.lookup d with
      | none =>
        simp only [hl]
        refine ih _ _ ?_
        intro p hp
        rcases mem_setKey d [cellID] s.dependencies p hp with h1 | h2
        · rw [h1]
          exact ⟨List.nodup_singleton cellID, fun x hx => by
            rw [List.mem_singleton.mp hx]; exact hc⟩
        · exact h p h2
      | some ds =>
        simp only [hl]
        by_cases hm : ds.contains cellID = true
        · rw [if_pos hm]
          exact ih s _ h
        · rw [if_neg hm]
          refine ih _ _ ?_
          intro p hp
          rcases mem_setKey d (ds ++ [cellID]) s.dependencies p hp with h1 | h2
          · obtain ⟨hnd, hsub⟩ := h (d, ds) (lookup_mem d ds s.dependencies hl)
            have hni : cellID ∉ ds := fun hmem =>
              hm (List.elem_iff.mpr hmem)
            rw [h1]
            constructor
            · rw [List.nodup_append]
              exact ⟨hnd, List.nodup_singleton cellID, fun x hx hx1 => by
                rw [List.mem_singleton.mp hx1] at hx; exact hni hx⟩
            · exact List.append_subset.mpr ⟨hsub, fun x hx => by
                rw [List.mem_singleton.mp hx]; exact hc⟩
          · exact h p h2

/-- One enqueue step keeps the semaphore, the dependency map and the
iteration cap, and either leaves the queue alone or appends one cell not
yet queued. -/
theorem enqueueDep_step (cellID dep : CellID) (s : Sheet) (q : List CellID)
    (hq : s.depUpdateQueue = some q) :
    (enqueueDep cellID s dep).calculationSemaphore = s.calculationSemaphore ∧
    (enqueueDep cellID s dep).dependencies = s.dependencies ∧
    (enqueueDep cellID s dep).maxIterations = s.maxIterations ∧
    ((enqueueDep cellID s dep).depUpdateQueue = some q ∨
     (dep ∉ q ∧ (enqueueDep cellID s dep).depUpdateQueue = some (q ++ [dep]))) := by
  unfold enqueueDep
  dsimp only
  split
  · exact ⟨rfl, rfl, rfl, Or.inl hq⟩
  · cases hg : s.calculationSourceGraph with
    | none =>
      dsimp only
      rw [hq]
      dsimp only
      by_cases hcq : q.contains dep = true
      · rw [if_pos hcq]
        exact ⟨rfl, rfl, rfl, Or.inl hq⟩
      · rw [if_neg hcq]
        exact ⟨rfl, rfl, rfl, Or.inr ⟨fun hmem => hcq (List.elem_iff.mpr hmem), rfl⟩⟩
    | some graph =>
      dsimp only
      cases hl : graph.lookup dep with
      | none =>
        dsimp only
        rw [hq]
        dsimp only
        by_cases hcq : q.contains dep = true
        · rw [if_pos hcq]
          exact ⟨rfl, rfl, rfl, Or.inl rfl⟩
        · rw [if_neg hcq]
          exact ⟨rfl, rfl, rfl, Or.inr ⟨fun hmem => hcq (List.elem_iff.mpr hmem), rfl⟩⟩
      | some srcs =>
        dsimp only
        rw [hq]
        dsimp only
        by_cases hcq : q.contains dep = true
        · rw [if_pos hcq]
          exact ⟨rfl, rfl, rfl, Or.inl rfl⟩
        · rw [if_neg hcq]
          exact ⟨rfl, rfl, rfl, Or.inr ⟨fun hmem => hcq (List.elem_iff.mpr hmem), rfl⟩⟩

/-- Folding the enqueue step over a consumer list inside the universe keeps
the semaphore, the dependency map and the cap, and grows the queue only
with universe cells, without introducing duplicates. -/
theorem enqueueDep_foldl_inv (U : List CellID) (cellID : CellID) :
    ∀ (deps : List CellID) (s : Sheet) (q : List CellID),
      deps ⊆ U →
      s.depUpdateQueue = some q → q.Nodup → q ⊆ U →
      (∃ q', (deps.foldl (enqueueDep cellID) s).depUpdateQueue = some q' ∧
        q'.Nodup ∧ q' ⊆ U) ∧
      (deps.foldl (enqueueDep cellID) s).calculationSemaphore =
        s.calculationSemaphore ∧
      (deps.foldl (enqueueDep cellID) s).dependencies = s.dependencies ∧
      (deps.foldl (enqueueDep cellID) s).maxIterations = s.maxIterations := by
  intro deps
  induction deps with
  | nil =>
    intro s q _ hq hqn hqU
    exact ⟨⟨q, hq, hqn, hqU⟩, rfl, rfl, rfl⟩
  | cons d rest ih =>
    intro s q hsub hq hqn hqU
    rw [List.foldl_cons]
    obtain ⟨hsem1, hdep1, hmax1, hq1⟩ := enqueueDep_step cellID d s q hq
    have hrest : rest ⊆ U := fun x hx => hsub (List.mem_cons_of_mem d hx)
    cases hq1 with
    | inl hsame =>
      obtain ⟨⟨q', hq', hq'n, hq'U⟩, h2, h3, h4⟩ :=
        ih (enqueueDep cellID s d) q hrest hsame hqn hqU
      exact ⟨⟨q', hq', hq'n, hq'U⟩, h2.trans hsem1, h3.trans hdep1, h4.trans hmax1⟩
    | inr hgrow =>
      obtain ⟨hni, happ⟩ := hgrow
      have hapn : (q ++ [d]).Nodup := by
        rw [List.nodup_append]
        exact ⟨hqn, List.nodup_singleton d, fun x hx hx1 => by
          rw [List.mem_singleton.mp hx1] at hx; exact hni hx⟩
      have hapU : (q ++ [d]) ⊆ U := List.append_subset.mpr
        ⟨hqU, fun x hx => by
          rw [List.mem_singleton.mp hx]; exact hsub (List.mem_cons_self d rest)⟩
      obtain ⟨⟨q', hq', hq'n, hq'U⟩, h2, h3, h4⟩ :=
        ih (enqueueDep cellID s d) (q ++ [d]) hrest happ hapn hapU
      exact ⟨⟨q', hq', hq'n, hq'U⟩, h2.trans hsem1, h3.trans hdep1, h4.trans hmax1⟩

/-- The enqueue-only updateDependencies call keeps the semaphore, the
dependency map and the cap, and the queue stays duplicate-free inside the
universe. -/
theorem updateDepsNoDrain_effect (U : List CellID) (s : Sheet) (c : CellID)
    (q : List CellID)
    (hq : s.depUpdateQueue = some q) (hqn : q.Nodup) (hqU : q ⊆ U)
    (hdep : ∀ p ∈ s.dependencies, p.2.Nodup ∧ p.2 ⊆ U) :
    (∃ q', (updateDepsNoDrain s c).depUpdateQueue = some q' ∧
      q'.Nodup ∧ q' ⊆ U) ∧
    (updateDepsNoDrain s c).calculationSemaphore = s.calculationSemaphore ∧
    (updateDepsNoDrain s c).dependencies = s.dependencies ∧
    (updateDepsNoDrain s c).maxIterations = s.maxIterations := by
  unfold updateDepsNoDrain
  cases hl : s.dependencies.lookup c with
  | none => exact ⟨⟨q, hq, hqn, hqU⟩, rfl, rfl, rfl⟩
  | some deps =>
    have hsub : deps ⊆ U := (hdep (c, deps) (lookup_mem c deps s.dependencies hl)).2
    exact enqueueDep_foldl_inv U c deps s q hsub hq hqn hqU

/-- The edge-rebinding tail of a recalculation (bind, overwrite dependants,
enqueue consumers) keeps the semaphore and the cap, keeps every consumer
list duplicate-free inside the universe, and leaves the queue duplicate-free
inside the universe. -/
theorem calcTail_effect (U : List CellID) (c : CellID) (hc : c ∈ U)
    (t : Sheet) (found : List CellID) (q : List CellID)
    (hq : t.depUpdateQueue = some q) (hqn : q.Nodup) (hqU : q ⊆ U)
    (hdep : ∀ p ∈ t.dependencies, p.2.Nodup ∧ p.2 ⊆ U) :
    (∃ q', (updateDepsNoDrain { (bindDeps t c found).1 with
        dependants := setKey c (bindDeps t c found).2
          (bindDeps t c found).1.dependants } c).depUpdateQueue = some q' ∧
      q'.Nodup ∧ q' ⊆ U) ∧
    (updateDepsNoDrain { (bindDeps t c found).1 with
        dependants := setKey c (bindDeps t c found).2
          (bindDeps t c found).1.dependants } c).calculationSemaphore =
      t.calculationSemaphore ∧
    (∀ p ∈ (updateDepsNoDrain { (bindDeps t c found).1 with
        dependants := setKey c (bindDeps t c found).2
          (bindDeps t c found).1.dependants } c).dependencies,
      p.2.Nodup ∧ p.2 ⊆ U) ∧
    (updateDepsNoDrain { (bindDeps t c found).1 with
        dependants := setKey c (bindDeps t c found).2
          (bindDeps t c found).1.dependants } c).maxIterations =
      t.maxIterations := by
  obtain ⟨dd, l, hbs⟩ := bindDepsAux_shape c found t []
  have hb2 : bindDeps t c found = ({ t with dependencies := dd }, l) := hbs
  have hinv := bindDepsAux_inv U c hc found t [] hdep
  have hinv2 : ∀ p ∈ dd, p.2.Nodup ∧ p.2 ⊆ U := by
    intro p hp
    refine hinv p ?_
    rw [hbs]
    exact hp
  rw [hb2]
  dsimp only
  obtain ⟨hqf, hsemf, hdepf, hmaxf⟩ := updateDepsNoDrain_effect U
    { t with dependencies := dd, dependants := setKey c l t.dependants } c q
    hq hqn hqU hinv2
  refine ⟨hqf, hsemf.trans rfl, ?_, hmaxf.trans rfl⟩
  intro p hp
  rw [hdepf] at hp
  exact hinv2 p hp

/-- A recalculation performed from inside an active drain either throws, or
returns normally having kept the cap and the universe invariants while
either leaving the semaphore and queue untouched (empty expression, or the
over-cap guard abort) or strictly spending visitation budget with the queue
still duplicate-free inside the universe. -/
theorem calcInPass_effect (E : Engine) (U : List CellID) (maxIt : Nat)
    (s : Sheet) (row col : Nat) (expr : String) (m : List (CellID × Nat))
    (q : List CellID)
    (hmax : s.maxIterations = maxIt)
    (hsem : s.calculationSemaphore = some m)
    (hq : s.depUpdateQueue = some q) (hqn : q.Nodup) (hqU : q ⊆ U)
    (hdep : ∀ p ∈ s.dependencies, p.2.Nodup ∧ p.2 ⊆ U)
    (hcell : getCellID row col ∈ U) :
    (∃ msg, calcInPass E s row col expr = .thrown msg) ∨
    (∃ s' out, calcInPass E s row col expr = .ok (s', out) ∧
      s'.maxIterations = maxIt ∧
      (∀ p ∈ s'.dependencies, p.2.Nodup ∧ p.2 ⊆ U) ∧
      ((s'.calculationSemaphore = some m ∧ s'.depUpdateQueue = some q) ∨
       (∃ m' q', s'.calculationSemaphore = some m' ∧
         s'.depUpdateQueue = some q' ∧ q'.Nodup ∧ q' ⊆ U ∧
         semMeasure maxIt U m' < semMeasure maxIt U m))) := by
  unfold calcInPass calcWith
  by_cases hex : expr = ""
  · rw [if_pos hex]
    exact Or.inr ⟨s, none, rfl, hmax, hdep, Or.inl ⟨hsem, hq⟩⟩
  · rw [if_neg hex]
    dsimp only
    rcases guardStep_cases s (getCellID row col) m hsem with
      ⟨n, hln, hgt, hgs⟩ | ⟨k, hk, hlk, hgs⟩
    · rw [hgs]
      dsimp only
      exact Or.inr ⟨_, none, rfl, hmax, hdep, Or.inl ⟨hsem, hq⟩⟩
    · rw [hgs]
      dsimp only
      cases hp : E.parse expr with
      | error msg => exact Or.inl ⟨msg, rfl⟩
      | ok p =>
        dsimp only
        cases hr : p.run { s with calculationSemaphore := some (setKey (getCellID row col) (k + 1) m) } with
        | ok v =>
          dsimp only
          split
          · exact Or.inr ⟨_, none, rfl, hmax, hdep,
              Or.inr ⟨setKey (getCellID row col) (k + 1) m, q, rfl, hq, hqn, hqU,
                semMeasure_setKey_lt maxIt U m (getCellID row col) k hcell hlk
                  (by omega)⟩⟩
          · have htail := calcTail_effect U (getCellID row col) hcell
              { s with calculationSemaphore := some (setKey (getCellID row col) (k + 1) m), calculated := setCell (ensureRow s.calculated row) row col v }
              p.cellDeps q hq hqn hqU hdep
            obtain ⟨⟨q', hq', hq'n, hq'U⟩, hsemf, hdepf, hmaxf⟩ := htail
            exact Or.inr ⟨_, _, rfl, hmaxf.trans hmax, hdepf,
              Or.inr ⟨setKey (getCellID row col) (k + 1) m, q', hsemf, hq',
                hq'n, hq'U,
                semMeasure_setKey_lt maxIt U m (getCellID row col) k hcell hlk
                  (by omega)⟩⟩
        | error em =>
          dsimp only
          split
          · exact Or.inr ⟨_, none, rfl, hmax, hdep,
              Or.inr ⟨setKey (getCellID row col) (k + 1) m, q, rfl, hq, hqn, hqU,
                semMeasure_setKey_lt maxIt U m (getCellID row col) k hcell hlk
                  (by omega)⟩⟩
          · have htail := calcTail_effect U (getCellID row col) hcell
              { s with calculationSemaphore := some (setKey (getCellID row col) (k + 1) m), nextRef := s.nextRef + 1, calculated := setCell (ensureRow s.calculated row) row col (.err s.nextRef "#ERROR!") }
              p.cellDeps q hq hqn hqU hdep
            obtain ⟨⟨q', hq', hq'n, hq'U⟩, hsemf, hdepf, hmaxf⟩ := htail
            exact Or.inr ⟨_, _, rfl, hmaxf.trans hmax, hdepf,
              Or.inr ⟨setKey (getCellID row col) (k + 1) m, q', hsemf, hq',
                hq'n, hq'U,
                semMeasure_setKey_lt maxIt U m (getCellID row col) k hcell hlk
                  (by omega)⟩⟩

/-- With fuel exceeding the drain measure — visitation budget weighted by
the universe size, plus the queue length — the drain loop never runs out of
fuel: every iteration pops the queue or strictly spends budget. -/
theorem drainQueue_no_fuelOut (E : Engine) (U : List CellID) (maxIt : Nat) :
    ∀ (fuel : Nat) (s : Sheet) (m : List (CellID × Nat)) (q : List CellID),
      s.maxIterations = maxIt →
      s.calculationSemaphore = some m →
      s.depUpdateQueue = some q → q.Nodup → q ⊆ U →
      (∀ p ∈ s.dependencies, p.2.Nodup ∧ p.2 ⊆ U) →
      semMeasure maxIt U m * (U.length + 1) + q.length < fuel →
      drainQueue E fuel s ≠ .fuelOut := by
  intro fuel
  induction fuel with
  | zero =>
    intro s m q _ _ _ _ _ _ hlt
    exact absurd hlt (Nat.not_lt_zero _)
  | succ fuel ih =>
    intro s m q hmax hsem hq hqn hqU hdep hlt
    unfold drainQueue
    rw [hq]
    cases q with
    | nil =>
      intro hcon
      exact Res.noConfusion hcon
    | cons dep rest =>
      dsimp only
      cases hcellv : getCell s.data (getCellPos dep).1 (getCellPos dep).2 with
      | none =>
        intro hcon
        exact Res.noConfusion hcon
      | some v =>
        cases v with
        | str t =>
          dsimp only
          have hrestn : rest.Nodup := hqn.of_cons
          have hrestU : rest ⊆ U := fun x hx => hqU (List.mem_cons_of_mem dep hx)
          have hdepU : getCellID (getCellPos dep).1 (getCellPos dep).2 ∈ U :=
            hqU (List.mem_cons_self dep rest)
          rcases calcInPass_effect E U maxIt
              { s with depUpdateQueue := some rest } (getCellPos dep).1
              (getCellPos dep).2 (t.drop 1) m rest
              hmax hsem rfl hrestn hrestU hdep hdepU with
            ⟨msg, hthr⟩ | ⟨s', out, hok, hmax', hdep', hcases⟩
          · rw [hthr]
            intro hcon
            exact Res.noConfusion hcon
          · rw [hok]
            dsimp only
            cases hcases with
            | inl hsame =>
              refine ih s' m rest hmax' hsame.1 hsame.2 hrestn hrestU hdep' ?_
              rw [List.length_cons] at hlt
              omega
            | inr hspend =>
              obtain ⟨m', q', hsem', hq', hq'n, hq'U, hml⟩ := hspend
              refine ih s' m' q' hmax' hsem' hq' hq'n hq'U hdep' ?_
              have hqlen : q'.length ≤ U.length :=
                nodup_subset_length q' U hq'n hq'U
              have hstep : semMeasure maxIt U m' + 1 ≤ semMeasure maxIt U m := hml
              have hmul := Nat.mul_le_mul_right (U.length + 1) hstep
              rw [Nat.add_mul, Nat.one_mul] at hmul
              rw [List.length_cons] at hlt
              set A := semMeasure maxIt U m' * (U.length + 1) with hA
              set B := semMeasure maxIt U m * (U.length + 1) with hB
              omega
        | num jn =>
          intro hcon
          exact Res.noConfusion hcon
        | bool b =>
          intro hcon
          exact Res.noConfusion hcon
        | date r =>
          intro hcon
          exact Res.noConfusion hcon
        | err r msg =>
          intro hcon
          exact Res.noConfusion hcon

/-- Claim C7.  Two statements over the two kinds of state the claim
speaks about.  Top-level: from any state with no queued pass (the queue
null, as it is whenever no propagation is active) and duplicate-free
consumer lists (the only lists the edge binder builds), updateDependencies
given the fuel bound passFuel — proportional to maxIterations for a fixed
dependency topology — never exhausts its fuel: the pass terminates,
normally or by propagating an exception.  Mid-pass: from any state whose
semaphore records a visitation counter past maxIterations for a cell,
recalculating that cell emits the iteration-limit diagnostic and returns
with the state otherwise untouched: no cache write and no consumers
enqueued. -/
theorem C7_pass_terminates :
    (∀ (E : Engine) (s : Sheet) (cellID : CellID),
      s.depUpdateQueue = none →
      (∀ p ∈ s.dependencies, p.2.Nodup) →
      updateDependencies E (passFuel s) s cellID ≠ .fuelOut) ∧
    (∀ (E : Engine) (s : Sheet) (row col : Nat) (expr : String)
        (m : List (CellID × Nat)) (n : Nat),
      expr ≠ "" →
      s.calculationSemaphore = some m →
      m.lookup (getCellID row col) = some n →
      s.maxIterations < n →
      calcInPass E s row col expr =
        .ok ({ s with events := s.events ++
            [.consoleWarn "Circular reference hit max iteration limit"] }, none)) := by
  constructor
  · intro E s cellID hq hnd
    unfold updateDependencies
    cases hl : s.dependencies.lookup cellID with
    | none =>
      intro hcon
      exact Res.noConfusion hcon
    | some deps =>
      rw [hq]
      dsimp only
      have hdeps : ∀ p ∈ s.dependencies, p.2.Nodup ∧ p.2 ⊆ consumerUniverse s := by
        intro p hp
        refine ⟨hnd p hp, ?_⟩
        intro x hx
        unfold consumerUniverse
        rw [List.mem_join]
        exact ⟨p.2, List.mem_map.mpr ⟨p, hp, rfl⟩, hx⟩
      have hdsub : deps ⊆ consumerUniverse s := lookup_subset_universe s cellID deps hl
      have hdnd : deps.Nodup := hnd (cellID, deps) (lookup_mem cellID deps s.dependencies hl)
      have hdlen : deps.length ≤ (consumerUniverse s).length :=
        nodup_subset_length deps (consumerUniverse s) hdnd hdsub
      have hms : semMeasure s.maxIterations (consumerUniverse s) [(cellID, 1)] ≤
          (s.maxIterations + 2) * (consumerUniverse s).length :=
        semMeasure_le s.maxIterations (consumerUniverse s) [(cellID, 1)]
      by_cases hit : s.iterate = true
      · rw [if_pos hit]
        try dsimp only
        have hdq := drainQueue_no_fuelOut E (consumerUniverse s) s.maxIterations
          (passFuel s)
          { s with calculationSemaphore := some [(cellID, 1)],
                   depUpdateQueue := some deps }
          [(cellID, 1)] deps rfl rfl rfl hdnd hdsub hdeps (by
            unfold passFuel
            have hmul := Nat.mul_le_mul_right ((consumerUniverse s).length + 1) hms
            set A := semMeasure s.maxIterations (consumerUniverse s) [(cellID, 1)] *
              ((consumerUniverse s).length + 1) with hA
            set B := (s.maxIterations + 2) * (consumerUniverse s).length *
              ((consumerUniverse s).length + 1) with hB
            omega)
        intro hcon
        split at hcon
        · exact Res.noConfusion hcon
        · exact Res.noConfusion hcon
        · rename_i hdr
          exact hdq hdr
      · rw [if_neg hit]
        try dsimp only
        have hdq := drainQueue_no_fuelOut E (consumerUniverse s) s.maxIterations
          (passFuel s)
          { s with calculationSourceGraph := some [],
                   calculationSemaphore := some [(cellID, 1)],
                   depUpdateQueue := some deps }
          [(cellID, 1)] deps rfl rfl rfl hdnd hdsub hdeps (by
            unfold passFuel
            have hmul := Nat.mul_le_mul_right ((consumerUniverse s).length + 1) hms
            set A := semMeasure s.maxIterations (consumerUniverse s) [(cellID, 1)] *
              ((consumerUniverse s).length + 1) with hA
            set B := (s.maxIterations + 2) * (consumerUniverse s).length *
              ((consumerUniverse s).length + 1) with hB
            omega)
        intro hcon
        split at hcon
        · exact Res.noConfusion hcon
        · exact Res.noConfusion hcon
        · rename_i hdr
          exact hdq hdr
  · intro E s row col expr m n hexpr hsem hlook hn
    unfold calcInPass calcWith
    rw [if_neg hexpr]
    dsimp only
    rcases guardStep_cases s (getCellID row col) m hsem with
      ⟨n2, hln2, hgt2, hgs⟩ | ⟨k, hk, hlk, hgs⟩
    · rw [hgs]
    · rw [hlook] at hlk
      simp only [Option.getD_some] at hlk
      omega

/-- Witness for the termination theorem: the top-level statement applied
at a concrete pass-inactive sheet, the guard-abort statement at a concrete
mid-pass sheet with an over-cap semaphore entry. -/
theorem C7_pass_terminates_witness :
    (c7wTop.depUpdateQueue = none ∧
     (∀ p ∈ c7wTop.dependencies, p.2.Nodup) ∧
     updateDependencies engineC6 (passFuel c7wTop) c7wTop (0, 0) ≠ .fuelOut) ∧
    ("B+1" ≠ "" ∧
     c7wMid.calculationSemaphore = some [((0, 0), 1001)] ∧
     ([((0, 0), 1001)] : List (CellID × Nat)).lookup (getCellID 0 0) = some 1001 ∧
     c7wMid.maxIterations < 1001 ∧
     calcInPass engineC6 c7wMid 0 0 "B+1" =
       .ok ({ c7wMid with events := c7wMid.events ++
           [.consoleWarn "Circular reference hit max iteration limit"] }, none)) :=
  ⟨⟨rfl, by decide,
    C7_pass_terminates.1 engineC6 c7wTop (0, 0) rfl (by decide)⟩,
   ⟨by decide, rfl, by decide, by decide,
    C7_pass_terminates.2 engineC6 c7wMid 0 0 "B+1" [((0, 0), 1001)] 1001
      (by decide) rfl (by decide) (by decide)⟩⟩

end WS
